import Mathlib

/-!
A verification model of the group-order core of this repository
(`OrderService.ts`, `OrderModificationService.ts`, `ParticipantService`,
`OrderScheduler.ts`).  The TypeScript classes keep their state in JavaScript
`Map`s; here a map is an association list with JavaScript `Map` semantics
(`set` replaces the first binding in place, `get` finds the first binding).
Timestamps (`Date`) are absolute instants in milliseconds, modelled as `Nat`;
every method that reads the clock (`new Date()`) receives the instant `now`
as an argument, and every call of `generateId()` receives the fresh
identifier as an argument.  Prices are `Int` (customization modifiers may be
negative).  A thrown `Error` is modelled as `Except.error`; `null` returns
are `Option.none`.
-/

namespace OrderPage

/-- JavaScript `Map.get`: first binding of the key, if any. -/
def mapGet {α : Type} (m : List (String × α)) (k : String) : Option α :=
  match m with
  | [] => none
  | (k1, v1) :: rest => if k1 == k then some v1 else mapGet rest k

/-- JavaScript `Map.set`: replace the first binding of the key in place, or
append a new binding at the end. -/
def mapSet {α : Type} (m : List (String × α)) (k : String) (v : α) :
    List (String × α) :=
  match m with
  | [] => [(k, v)]
  | (k1, v1) :: rest =>
      if k1 == k then (k, v) :: rest else (k1, v1) :: mapSet rest k v

/-- JavaScript `Map.delete`: drop every binding of the key. -/
def mapDelete {α : Type} (m : List (String × α)) (k : String) :
    List (String × α) :=
  m.filter (fun e => e.1 != k)

/-! ### Data model (`types/order`, reconstructed from its uses in
`OrderService.ts` and the spec's §3 data-model section) -/

/-- Order status: `'active' | 'closed' | 'expired'`. -/
inductive OrderStatus where
  | active
  | closed
  | expired
  deriving DecidableEq, Repr

/-- String form of a status, as interpolated into error messages. -/
def OrderStatus.str : OrderStatus → String
  | .active => "active"
  | .closed => "closed"
  | .expired => "expired"

/-- One customization on an order item: name plus price modifier. -/
structure Customization where
  name : String
  priceModifier : Int
  deriving DecidableEq, Repr

/-- An order item owned by a participant. -/
structure OrderItem where
  id : String
  menuItemId : String
  menuItemName : String
  basePrice : Int
  quantity : Int
  customizations : List Customization
  totalPrice : Int
  notes : Option String
  deriving DecidableEq, Repr

/-- A participant of a group order. -/
structure OrderParticipant where
  id : String
  userId : Option String
  guestSessionId : Option String
  nickname : String
  items : List OrderItem
  totalAmount : Int
  joinedAt : Nat
  lastModifiedAt : Nat
  deriving DecidableEq, Repr

/-- One entry of the summary's per-menu-item breakdown.  `participants`
collects nicknames, one push per order item (see
`OrderServiceImpl.calculateOrderSummary`). -/
structure OrderItemBreakdown where
  menuItemId : String
  menuItemName : String
  totalQuantity : Int
  totalAmount : Int
  participants : List String
  deriving DecidableEq, Repr

/-- The cached summary of an order. -/
structure OrderSummary where
  totalParticipants : Nat
  totalItems : Int
  totalAmount : Int
  itemBreakdown : List OrderItemBreakdown
  lastUpdated : Nat
  deriving DecidableEq, Repr

/-- Order settings.  `maxParticipants` is an optional JavaScript number, so
the code's truthiness tests (`if (settings.maxParticipants && ...)`) skip the
capacity check both when it is `undefined` and when it is `0`. -/
structure OrderSettings where
  allowModification : Bool
  maxParticipants : Option Nat
  autoCloseOnDeadline : Bool
  deriving DecidableEq, Repr

/-- A group order aggregate. -/
structure GroupOrder where
  id : String
  orderCode : String
  menuId : String
  createdBy : String
  title : String
  description : Option String
  status : OrderStatus
  deadline : Option Nat
  createdAt : Nat
  updatedAt : Nat
  closedAt : Option Nat
  participants : List OrderParticipant
  summary : OrderSummary
  settings : OrderSettings
  deriving DecidableEq, Repr

/-- A menu item as the order core reads it from the menu catalog. -/
structure MenuItem where
  id : String
  name : String
  price : Int
  isAvailable : Bool
  deriving DecidableEq, Repr

/-- A menu from the catalog (only the fields the order core reads). -/
structure Menu where
  id : String
  items : List MenuItem
  deriving DecidableEq, Repr

/-- A join request (`JoinOrderRequest`). -/
structure JoinOrderRequest where
  orderCode : String
  nickname : String
  userId : Option String
  guestSessionId : Option String
  deriving DecidableEq, Repr

/-- An add-item request (`AddOrderItemRequest`). -/
structure AddOrderItemRequest where
  menuItemId : String
  quantity : Int
  customizations : Option (List Customization)
  notes : Option String
  deriving DecidableEq, Repr

/-- An update-item request (`UpdateOrderItemRequest`); `none` fields are
absent (`undefined`) and leave the item's field unchanged. -/
structure UpdateOrderItemRequest where
  quantity : Option Int
  customizations : Option (List Customization)
  notes : Option String
  deriving DecidableEq, Repr

/-- Partial settings carried by an order-update request. -/
structure OrderSettingsUpdate where
  allowModification : Option Bool
  maxParticipants : Option (Option Nat)
  autoCloseOnDeadline : Option Bool
  deriving DecidableEq, Repr

/-- Modelled from the spec: `GroupOrderUpdateRequest` lives in
`types/order.ts`, which is not among the sources; §4.2 of the spec says an
update carries title/description/settings (id, code, creator and creation
timestamp are immutable), matching the explicit re-pinning of those fields
in `OrderServiceImpl.updateOrder`. -/
structure GroupOrderUpdateRequest where
  title : Option String
  description : Option String
  deadline : Option Nat
  settings : Option OrderSettingsUpdate
  deriving DecidableEq, Repr

/-- Result of `validateOrderCode` and `joinOrder` (`OrderValidationResult`). -/
structure OrderValidationResult where
  isValid : Bool
  canJoin : Bool
  error : Option String
  order : Option GroupOrder
  deriving DecidableEq, Repr

/-- Kinds of modification records. -/
inductive ModType where
  | item_added
  | item_updated
  | item_removed
  | participant_joined
  | participant_left
  deriving DecidableEq, Repr

/-- An audit record (`OrderModification`); the untyped old/new value
snapshots are not modelled, no claim reads them. -/
structure OrderModification where
  id : String
  orderId : String
  participantId : String
  participantNickname : String
  type : ModType
  timestamp : Nat
  description : String
  deriving DecidableEq, Repr

/-- Result of `checkModificationPermission`; `timeRemaining` is in whole
minutes. -/
structure ModificationPermissionCheck where
  canModify : Bool
  reason : Option String
  timeRemaining : Option Int
  deriving DecidableEq, Repr

/-- A participant identity held by `ParticipantServiceImpl` (only the fields
its permission checks read). -/
structure ParticipantIdentity where
  id : String
  userId : Option String
  guestSessionId : Option String
  nickname : String
  lastActiveAt : Nat
  deriving DecidableEq, Repr

/-- Result of `validateParticipantIdentity`. -/
structure ParticipantValidationResult where
  isValid : Bool
  canJoin : Bool
  identity : Option ParticipantIdentity
  error : Option String
  deriving DecidableEq, Repr

/-- External collaborators of the core: the menu catalog
(`MenuService.getMenuById`), the registered users (`UserManager.getUserById`
succeeds exactly on these ids) and the live guest sessions
(`GuestService.getGuestSession`). -/
structure Env where
  menus : List (String × Menu)
  users : List String
  guestSessions : List String
  deriving DecidableEq, Repr

/-- The combined mutable state: the order store with its code index
(`OrderServiceImpl.orders` / `orderCodeIndex`), the append-only modification
log (`OrderModificationServiceImpl.modifications`, keyed by order id) and the
participant-identity registry (`ParticipantServiceImpl.participants`).  The
modification and participant services hold live references to the same
`orders` map. -/
structure OrderServiceState where
  orders : List (String × GroupOrder)
  orderCodeIndex : List (String × String)
  modifications : List (String × List OrderModification)
  identities : List (String × ParticipantIdentity)
  deriving DecidableEq, Repr

/-! ### List helpers shared by the operations.  `find?`/`replaceFirst`/
`removeFirst` model the `findIndex` + index-assignment / `splice` pattern of
the TypeScript code, which always acts on the first matching element. -/

/-- Replace the first element satisfying `pred` (TypeScript
`arr[arr.findIndex(pred)] = v`). -/
def replaceFirst {α : Type} (l : List α) (pred : α → Bool) (v : α) : List α :=
  match l with
  | [] => []
  | x :: xs => if pred x then v :: xs else x :: replaceFirst xs pred v

/-- Remove the first element satisfying `pred`, returning it and the rest
(TypeScript `splice(findIndex(pred), 1)`); `none` when no element matches. -/
def removeFirst {α : Type} (l : List α) (pred : α → Bool) :
    Option (α × List α) :=
  match l with
  | [] => none
  | x :: xs =>
      if pred x then some (x, xs)
      else (removeFirst xs pred).map (fun r => (r.1, x :: r.2))

/-- JavaScript `Set.add` on an insertion-ordered list without duplicates. -/
def insertIfAbsent (l : List String) (x : String) : List String :=
  if l.contains x then l else l ++ [x]

/-! ### Sums, written with the same left folds as the TypeScript `reduce`
and accumulation loops. -/

/-- Sum of `item.totalPrice` over a list of items (the
`reduce((sum, item) => sum + item.totalPrice, 0)` of the code). -/
def sumItemPrices (items : List OrderItem) : Int :=
  items.foldl (fun s i => s + i.totalPrice) 0

/-- Sum of `participant.totalAmount` over the participants. -/
def sumPartAmounts (ps : List OrderParticipant) : Int :=
  ps.foldl (fun s p => s + p.totalAmount) 0

/-- Sum of the price modifiers of a customization list. -/
def sumModifiers (cs : List Customization) : Int :=
  cs.foldl (fun s c => s + c.priceModifier) 0

/-- Total quantity over all participants' items. -/
def totalItemsOf (ps : List OrderParticipant) : Int :=
  ps.foldl (fun t p => p.items.foldl (fun u i => u + i.quantity) t) 0

/-! ### Aggregation engine (`OrderServiceImpl.calculateOrderSummary`) -/

/-- One step of the summary's `itemBreakdownMap` accumulation: merge an item
into the entry keyed by its menu item id, pushing the owner's nickname once
per item, or start a fresh entry. -/
def summaryStep (nickname : String) (m : List OrderItemBreakdown)
    (item : OrderItem) : List OrderItemBreakdown :=
  match m with
  | [] => [⟨item.menuItemId, item.menuItemName, item.quantity, item.totalPrice,
           [nickname]⟩]
  | b :: rest =>
      if b.menuItemId == item.menuItemId then
        { b with totalQuantity := b.totalQuantity + item.quantity,
                 totalAmount := b.totalAmount + item.totalPrice,
                 participants := b.participants ++ [nickname] } :: rest
      else b :: summaryStep nickname rest item

/-- The summary's per-menu-item breakdown over all participants' items. -/
def summaryBreakdown (ps : List OrderParticipant) : List OrderItemBreakdown :=
  ps.foldl (fun m p => p.items.foldl (summaryStep p.nickname) m) []

/-- The pure summary computation over a participant list. -/
def computeSummary (ps : List OrderParticipant) (now : Nat) : OrderSummary :=
  { totalParticipants := ps.length
    totalItems := totalItemsOf ps
    totalAmount := sumPartAmounts ps
    itemBreakdown := summaryBreakdown ps
    lastUpdated := now }

/-- `OrderServiceImpl.calculateOrderSummary`: recompute the summary of one
order from its participants and write it back into the store. -/
def calculateOrderSummary (st : OrderServiceState) (orderId : String)
    (now : Nat) : OrderServiceState × Option OrderSummary :=
  match mapGet st.orders orderId with
  | none => (st, none)
  | some order =>
      let summary := computeSummary order.participants now
      let updatedOrder := { order with summary := summary, updatedAt := now }
      ({ st with orders := mapSet st.orders orderId updatedOrder }, some summary)

/-! ### Lifecycle controller -/

/-- `order.deadline && order.deadline <= now` — a `Date` is always truthy. -/
def deadlinePassed (deadline : Option Nat) (now : Nat) : Bool :=
  match deadline with
  | some d => decide (d ≤ now)
  | none => false

/-- The capacity test
`order.settings.maxParticipants && participants.length >= maxParticipants`:
because of JavaScript truthiness a `maxParticipants` of `0` disables the
check. -/
def capacityReached (settings : OrderSettings) (n : Nat) : Bool :=
  match settings.maxParticipants with
  | some m => m != 0 && decide (m ≤ n)
  | none => false

/-- `OrderServiceImpl.createGroupOrder`.  The menu lookup and the
creator-visibility answer come from the environment (`canView` is the result
of `menuService.canUserViewMenu`); the generated id and code and the merged
settings are arguments.  The two `throw new Error(...)` paths are
`Except.error`. -/
def createGroupOrder (env : Env) (st : OrderServiceState) (userId : String)
    (menuId : String) (canView : Bool) (title : String)
    (description : Option String) (deadline : Option Nat)
    (settings : OrderSettings) (freshOrderId freshOrderCode : String)
    (now : Nat) : OrderServiceState × Except String GroupOrder :=
  match mapGet env.menus menuId with
  | none => (st, .error "Menu not found")
  | some _ =>
      if !canView then
        (st, .error "Permission denied: Cannot create order for private menu")
      else
        let order : GroupOrder :=
          { id := freshOrderId, orderCode := freshOrderCode, menuId := menuId
            createdBy := userId, title := title, description := description
            status := .active, deadline := deadline, createdAt := now
            updatedAt := now, closedAt := none, participants := []
            summary := ⟨0, 0, 0, [], now⟩, settings := settings }
        ({ st with
            orders := mapSet st.orders freshOrderId order
            orderCodeIndex := mapSet st.orderCodeIndex freshOrderCode freshOrderId },
         .ok order)

/-- Merge of `{ ...order.settings, ...request.settings }`. -/
def mergeSettings (s : OrderSettings) (u : Option OrderSettingsUpdate) :
    OrderSettings :=
  match u with
  | none => s
  | some upd =>
      { allowModification := upd.allowModification.getD s.allowModification
        maxParticipants := upd.maxParticipants.getD s.maxParticipants
        autoCloseOnDeadline := upd.autoCloseOnDeadline.getD s.autoCloseOnDeadline }

/-- `OrderServiceImpl.updateOrder`: creator-only, active-only; id, code,
creator and creation timestamp are re-pinned after the spread. -/
def updateOrder (st : OrderServiceState) (orderId userId : String)
    (request : GroupOrderUpdateRequest) (now : Nat) :
    OrderServiceState × Option GroupOrder :=
  match mapGet st.orders orderId with
  | none => (st, none)
  | some order =>
      if order.createdBy ≠ userId then (st, none)
      else if order.status ≠ .active then (st, none)
      else
        let updatedOrder := { order with
          title := request.title.getD order.title
          description := match request.description with
            | some d => some d
            | none => order.description
          deadline := match request.deadline with
            | some d => some d
            | none => order.deadline
          updatedAt := now
          settings := mergeSettings order.settings request.settings }
        ({ st with orders := mapSet st.orders orderId updatedOrder },
         some updatedOrder)

/-- `OrderServiceImpl.closeOrder`: creator-only, active-only. -/
def closeOrder (st : OrderServiceState) (orderId userId : String) (now : Nat) :
    OrderServiceState × Bool :=
  match mapGet st.orders orderId with
  | none => (st, false)
  | some order =>
      if order.createdBy ≠ userId then (st, false)
      else if order.status ≠ .active then (st, false)
      else
        let closedOrder := { order with
          status := .closed, closedAt := some now, updatedAt := now }
        ({ st with orders := mapSet st.orders orderId closedOrder }, true)

/-- `OrderServiceImpl.deleteOrder`: creator-only, any status; removes the
aggregate and its code-index entry (modification history is retained). -/
def deleteOrder (st : OrderServiceState) (orderId userId : String) :
    OrderServiceState × Bool :=
  match mapGet st.orders orderId with
  | none => (st, false)
  | some order =>
      if order.createdBy ≠ userId then (st, false)
      else
        ({ st with orders := mapDelete st.orders orderId
                   orderCodeIndex := mapDelete st.orderCodeIndex order.orderCode },
         true)

/-- `OrderServiceImpl.expireOrder`: active-only. -/
def expireOrder (st : OrderServiceState) (orderId : String) (now : Nat) :
    OrderServiceState × Bool :=
  match mapGet st.orders orderId with
  | none => (st, false)
  | some order =>
      if order.status ≠ .active then (st, false)
      else
        let expiredOrder := { order with
          status := .expired, closedAt := some now, updatedAt := now }
        ({ st with orders := mapSet st.orders orderId expiredOrder }, true)

/-- The sweep predicate of `checkAndExpireOrders`. -/
def expirePred (o : GroupOrder) (now : Nat) : Bool :=
  decide (o.status = .active) && deadlinePassed o.deadline now &&
    o.settings.autoCloseOnDeadline

/-- One step of the expiration sweep: expire the entry's order when the
sweep predicate holds for the entry as captured by the iteration, and push
its id. -/
def sweepStep (now : Nat) (acc : OrderServiceState × List String)
    (e : String × GroupOrder) : OrderServiceState × List String :=
  if expirePred e.2 now then ((expireOrder acc.1 e.1 now).1, acc.2 ++ [e.1])
  else acc

/-- `OrderServiceImpl.checkAndExpireOrders`: one sweep over the entries of
the order map, expiring each active order past its deadline with
`autoCloseOnDeadline` set and collecting the expired ids. -/
def checkAndExpireOrders (st : OrderServiceState) (now : Nat) :
    OrderServiceState × List String :=
  st.orders.foldl (sweepStep now) (st, [])

/-! ### Order-code validation and the join protocol -/

/-- `OrderServiceImpl.validateOrderCode`.  For a non-active or past-deadline
order it returns `isValid := true` with `canJoin := false` and the order
attached — `joinOrder` therefore does not stop at its early
`!validation.isValid || !validation.order` return for those cases. -/
def validateOrderCode (st : OrderServiceState) (orderCode : String)
    (now : Nat) : OrderValidationResult :=
  match mapGet st.orderCodeIndex orderCode with
  | none => ⟨false, false, some "Invalid order code", none⟩
  | some orderId =>
      match mapGet st.orders orderId with
      | none => ⟨false, false, some "Order not found", none⟩
      | some order =>
          if order.status ≠ .active then
            ⟨true, false, some ("Order is " ++ order.status.str), some order⟩
          else if deadlinePassed order.deadline now then
            ⟨true, false, some "Order deadline has passed", some order⟩
          else ⟨true, true, none, some order⟩

/-- Character class of the nickname pattern
`^[一-龥a-zA-Z0-9_\-\s]+$`. -/
def nicknameChar (c : Char) : Bool :=
  (decide (0x4e00 ≤ c.toNat) && decide (c.toNat ≤ 0x9fa5)) || c.isAlpha ||
    c.isDigit || c == '_' || c == '-' || c.isWhitespace

/-- Whether `s` starts with `pat` (both as character lists). -/
def startsWithChars : List Char → List Char → Bool
  | _, [] => true
  | [], _ :: _ => false
  | c :: cs, d :: ds => c == d && startsWithChars cs ds

/-- JavaScript `String.includes`, on character lists. -/
def hasSubstring (s pat : List Char) : Bool :=
  startsWithChars s pat ||
    match s with
    | [] => false
    | _ :: rest => hasSubstring rest pat

/-- The forbidden-word list of `ParticipantServiceImpl.isValidNickname`. -/
def forbiddenWords : List String :=
  ["admin", "system", "null", "undefined", "管理員", "系統"]

/-- ASCII case folding of `toLowerCase()` — the forbidden words contain
only ASCII letters and CJK characters, which Unicode case folding leaves
as ASCII lowering does. -/
def lowerChar (c : Char) : Char :=
  if c.isUpper then Char.ofNat (c.toNat + 32) else c

/-- `ParticipantServiceImpl.isValidNickname`: length 2–20, permitted
character set, no forbidden word inside the lowercased nickname. -/
def isValidNickname (nickname : String) : Bool :=
  decide (2 ≤ nickname.length) && decide (nickname.length ≤ 20) &&
    nickname.toList.all nicknameChar &&
    !(forbiddenWords.any
        (fun w => hasSubstring (nickname.toList.map lowerChar) w.toList))

/-- First identity whose `userId` matches, in map insertion order. -/
def findIdentityByUserId (m : List (String × ParticipantIdentity))
    (u : String) : Option ParticipantIdentity :=
  (m.map Prod.snd).find? (fun ident => ident.userId == some u)

/-- First identity whose `guestSessionId` matches. -/
def findIdentityByGuestSession (m : List (String × ParticipantIdentity))
    (g : String) : Option ParticipantIdentity :=
  (m.map Prod.snd).find? (fun ident => ident.guestSessionId == some g)

/-- `ParticipantServiceImpl.createParticipantIdentity`. -/
def createParticipantIdentity (st : OrderServiceState)
    (request : JoinOrderRequest) (freshId : String) (now : Nat) :
    OrderServiceState × ParticipantIdentity :=
  let identity : ParticipantIdentity :=
    { id := freshId, userId := request.userId
      guestSessionId := request.guestSessionId
      nickname := request.nickname, lastActiveAt := now }
  ({ st with identities := mapSet st.identities freshId identity }, identity)

/-- The guest-session / identity-creation tail of
`validateParticipantIdentity`, reached when there is no registered-user
identity to reuse. -/
def identityGuestStep (env : Env) (st : OrderServiceState)
    (request : JoinOrderRequest) (freshId : String) (now : Nat) :
    OrderServiceState × ParticipantValidationResult :=
  match request.guestSessionId with
  | some g =>
      if !(env.guestSessions.contains g) then
        (st, ⟨false, false, none, some "Invalid guest session"⟩)
      else
        match findIdentityByGuestSession st.identities g with
        | some ident => (st, ⟨true, true, some ident, none⟩)
        | none =>
            let r := createParticipantIdentity st request freshId now
            (r.1, ⟨true, true, some r.2, none⟩)
  | none =>
      let r := createParticipantIdentity st request freshId now
      (r.1, ⟨true, true, some r.2, none⟩)

/-- `ParticipantServiceImpl.validateParticipantIdentity`: nickname-format
check, then registered-user resolution, then guest-session resolution, then
identity creation. -/
def validateParticipantIdentity (env : Env) (st : OrderServiceState)
    (request : JoinOrderRequest) (freshId : String) (now : Nat) :
    OrderServiceState × ParticipantValidationResult :=
  if !(isValidNickname request.nickname) then
    (st, ⟨false, false, none,
      some "Invalid nickname format. Must be 2-20 characters, alphanumeric and Chinese characters only."⟩)
  else
    match request.userId with
    | some u =>
        if !(env.users.contains u) then
          (st, ⟨false, false, none, some "Invalid user ID"⟩)
        else
          match findIdentityByUserId st.identities u with
          | some ident => (st, ⟨true, true, some ident, none⟩)
          | none => identityGuestStep env st request freshId now
    | none => identityGuestStep env st request freshId now

/-- The membership test of `canParticipantJoinOrder`: the identity already
has a participant in the order (by participant id, owning user id or guest
session id). -/
def identityMatchesParticipant (ident : ParticipantIdentity) (pid : String)
    (p : OrderParticipant) : Bool :=
  p.id == pid ||
    (match ident.userId with | some u => p.userId == some u | none => false) ||
    (match ident.guestSessionId with
     | some g => p.guestSessionId == some g
     | none => false)

/-- `ParticipantServiceImpl.canParticipantJoinOrder`. -/
def canParticipantJoinOrder (st : OrderServiceState) (participantId : String)
    (order : GroupOrder) (now : Nat) : Bool :=
  match mapGet st.identities participantId with
  | none => false
  | some ident =>
      if order.status ≠ .active then false
      else if deadlinePassed order.deadline now then false
      else if capacityReached order.settings order.participants.length then
        false
      else !(order.participants.any (identityMatchesParticipant ident participantId))

/-- `ParticipantServiceImpl.updateParticipantActivity`: refresh
`lastActiveAt` when the id denotes a known identity, otherwise a no-op. -/
def updateParticipantActivity (st : OrderServiceState) (participantId : String)
    (now : Nat) : OrderServiceState :=
  match mapGet st.identities participantId with
  | some ident =>
      { st with identities :=
          mapSet st.identities participantId { ident with lastActiveAt := now } }
  | none => st

/-- The backup already-joined test inside `joinOrder`, on the request's own
user id, guest session id and nickname. -/
def requestMatchesParticipant (request : JoinOrderRequest)
    (p : OrderParticipant) : Bool :=
  (match request.userId with | some u => p.userId == some u | none => false) ||
    (match request.guestSessionId with
     | some g => p.guestSessionId == some g
     | none => false) ||
    p.nickname == request.nickname

/-- `OrderModificationServiceImpl.recordModification`: append an immutable
record to the order's modification list. -/
def recordModification (st : OrderServiceState)
    (orderId participantId nickname : String) (type : ModType)
    (description : String) (freshId : String) (now : Nat) :
    OrderServiceState :=
  let record : OrderModification :=
    ⟨freshId, orderId, participantId, nickname, type, now, description⟩
  let l := (mapGet st.modifications orderId).getD []
  { st with modifications := mapSet st.modifications orderId (l ++ [record]) }

/-- `OrderServiceImpl.joinOrder`, as wired in the repository (the
`ParticipantService` is always passed to the constructor): code resolution,
identity validation, `canParticipantJoinOrder`, the backup duplicate check,
the truthiness capacity check, then append + summary recompute +
`participant_joined` record + activity refresh. -/
def joinOrder (env : Env) (st : OrderServiceState) (request : JoinOrderRequest)
    (now : Nat) (freshIdentityId freshParticipantId freshModId : String) :
    OrderServiceState × OrderValidationResult :=
  let validation := validateOrderCode st request.orderCode now
  if !validation.isValid then (st, validation)
  else
    match validation.order with
    | none => (st, validation)
    | some order =>
        let r := validateParticipantIdentity env st request freshIdentityId now
        let st1 := r.1
        let iv := r.2
        if !iv.isValid || !iv.canJoin then
          (st1, ⟨false, false, some (iv.error.getD "Cannot join order"), none⟩)
        else
          let ok := match iv.identity with
            | some ident => canParticipantJoinOrder st1 ident.id order now
            | none => true
          if !ok then
            (st1, ⟨false, false, some "Cannot join this order", none⟩)
          else if order.participants.any (requestMatchesParticipant request) then
            (st1, ⟨false, false,
              some "Already joined this order or nickname already taken", none⟩)
          else if capacityReached order.settings order.participants.length then
            (st1, ⟨false, false,
              some "Order has reached maximum participants", none⟩)
          else
            let participant : OrderParticipant :=
              { id := freshParticipantId, userId := request.userId
                guestSessionId := request.guestSessionId
                nickname := request.nickname, items := [], totalAmount := 0
                joinedAt := now, lastModifiedAt := now }
            let updatedOrder := { order with
              participants := order.participants ++ [participant]
              updatedAt := now }
            let st2 :=
              { st1 with orders := mapSet st1.orders order.id updatedOrder }
            let st3 := (calculateOrderSummary st2 order.id now).1
            let st4 := recordModification st3 order.id freshParticipantId
              request.nickname .participant_joined
              (request.nickname ++ " joined the order") freshModId now
            let st5 := updateParticipantActivity st4 freshParticipantId now
            (st5, ⟨true, true, none, some updatedOrder⟩)

/-- `OrderServiceImpl.leaveOrder`: no status check — cleanup is allowed on
closed and expired orders too. -/
def leaveOrder (st : OrderServiceState) (orderId participantId : String)
    (now : Nat) (freshModId : String) : OrderServiceState × Bool :=
  match mapGet st.orders orderId with
  | none => (st, false)
  | some order =>
      match removeFirst order.participants (fun p => p.id == participantId) with
      | none => (st, false)
      | some r =>
          let removed := r.1
          let updatedOrder := { order with
            participants := r.2, updatedAt := now }
          let st1 := { st with orders := mapSet st.orders orderId updatedOrder }
          let st2 := (calculateOrderSummary st1 orderId now).1
          let st3 := recordModification st2 orderId participantId
            removed.nickname .participant_left
            (removed.nickname ++ " left the order") freshModId now
          (st3, true)

/-! ### Item ledger -/

/-- The price loop of `addOrderItem`:
`menuItem.price * quantity` plus `modifier * quantity` per customization. -/
def itemTotalPrice (base quantity : Int)
    (customizations : Option (List Customization)) : Int :=
  match customizations with
  | some cs => cs.foldl (fun t c => t + c.priceModifier * quantity) (base * quantity)
  | none => base * quantity

/-- `OrderServiceImpl.addOrderItem`.  Note: the request's quantity is used
as given — there is no positivity validation anywhere on this path. -/
def addOrderItem (env : Env) (st : OrderServiceState)
    (orderId participantId : String) (request : AddOrderItemRequest)
    (now : Nat) (freshItemId : String) :
    OrderServiceState × Option OrderItem :=
  match mapGet st.orders orderId with
  | none => (st, none)
  | some order =>
      if order.status ≠ .active then (st, none)
      else if !order.settings.allowModification then (st, none)
      else
        match order.participants.find? (fun p => p.id == participantId) with
        | none => (st, none)
        | some participant =>
            match mapGet env.menus order.menuId with
            | none => (st, none)
            | some menu =>
                match menu.items.find? (fun mi => mi.id == request.menuItemId) with
                | none => (st, none)
                | some menuItem =>
                    if !menuItem.isAvailable then (st, none)
                    else
                      let totalPrice :=
                        itemTotalPrice menuItem.price request.quantity
                          request.customizations
                      let orderItem : OrderItem :=
                        { id := freshItemId, menuItemId := request.menuItemId
                          menuItemName := menuItem.name
                          basePrice := menuItem.price
                          quantity := request.quantity
                          customizations := request.customizations.getD []
                          totalPrice := totalPrice, notes := request.notes }
                      let updatedParticipant := { participant with
                        items := participant.items ++ [orderItem]
                        totalAmount := participant.totalAmount + totalPrice
                        lastModifiedAt := now }
                      let updatedOrder := { order with
                        participants := replaceFirst order.participants
                          (fun p => p.id == participantId) updatedParticipant
                        updatedAt := now }
                      let st1 :=
                        { st with orders := mapSet st.orders orderId updatedOrder }
                      let st2 := (calculateOrderSummary st1 orderId now).1
                      (st2, some orderItem)

/-- `OrderServiceImpl.updateOrderItem`: totals are fully recomputed from the
updated item list. -/
def updateOrderItem (st : OrderServiceState)
    (orderId participantId itemId : String) (request : UpdateOrderItemRequest)
    (now : Nat) : OrderServiceState × Option OrderItem :=
  match mapGet st.orders orderId with
  | none => (st, none)
  | some order =>
      if order.status ≠ .active then (st, none)
      else if !order.settings.allowModification then (st, none)
      else
        match order.participants.find? (fun p => p.id == participantId) with
        | none => (st, none)
        | some participant =>
            match participant.items.find? (fun i => i.id == itemId) with
            | none => (st, none)
            | some existingItem =>
                let quantity := request.quantity.getD existingItem.quantity
                let customizations :=
                  request.customizations.getD existingItem.customizations
                let totalPrice := customizations.foldl
                  (fun t c => t + c.priceModifier * quantity)
                  (existingItem.basePrice * quantity)
                let updatedItem := { existingItem with
                  quantity := quantity, customizations := customizations
                  totalPrice := totalPrice
                  notes := match request.notes with
                    | some n => some n
                    | none => existingItem.notes }
                let updatedItems := replaceFirst participant.items
                  (fun i => i.id == itemId) updatedItem
                let updatedParticipant := { participant with
                  items := updatedItems
                  totalAmount := sumItemPrices updatedItems
                  lastModifiedAt := now }
                let updatedOrder := { order with
                  participants := replaceFirst order.participants
                    (fun p => p.id == participantId) updatedParticipant
                  updatedAt := now }
                let st1 :=
                  { st with orders := mapSet st.orders orderId updatedOrder }
                let st2 := (calculateOrderSummary st1 orderId now).1
                (st2, some updatedItem)

/-- `OrderServiceImpl.removeOrderItem`. -/
def removeOrderItem (st : OrderServiceState)
    (orderId participantId itemId : String) (now : Nat) :
    OrderServiceState × Bool :=
  match mapGet st.orders orderId with
  | none => (st, false)
  | some order =>
      if order.status ≠ .active then (st, false)
      else if !order.settings.allowModification then (st, false)
      else
        match order.participants.find? (fun p => p.id == participantId) with
        | none => (st, false)
        | some participant =>
            match removeFirst participant.items (fun i => i.id == itemId) with
            | none => (st, false)
            | some r =>
                let updatedParticipant := { participant with
                  items := r.2
                  totalAmount := sumItemPrices r.2
                  lastModifiedAt := now }
                let updatedOrder := { order with
                  participants := replaceFirst order.participants
                    (fun p => p.id == participantId) updatedParticipant
                  updatedAt := now }
                let st1 :=
                  { st with orders := mapSet st.orders orderId updatedOrder }
                let st2 := (calculateOrderSummary st1 orderId now).1
                (st2, true)

/-! ### Modification history and permission window
(`OrderModificationServiceImpl`) -/

/-- The minute computation of `checkModificationPermission`:
`Math.max(0, Math.floor((deadline - now) / 60000))`.  `Math.floor` on the
possibly negative difference is flooring division, `Int.fdiv`. -/
def minutesRemaining (deadlineMs now : Nat) : Int :=
  max 0 (((deadlineMs : Int) - (now : Int)).fdiv 60000)

/-- `OrderModificationServiceImpl.checkModificationPermission`. -/
def checkModificationPermission (st : OrderServiceState)
    (orderId participantId : String) (now : Nat) :
    ModificationPermissionCheck :=
  match mapGet st.orders orderId with
  | none => ⟨false, some "Order not found", none⟩
  | some order =>
      if order.status ≠ .active then
        ⟨false, some ("Order is " ++ order.status.str), none⟩
      else if !order.settings.allowModification then
        ⟨false, some "Order modifications are disabled", none⟩
      else
        match order.participants.find? (fun p => p.id == participantId) with
        | none => ⟨false, some "Participant not found in order", none⟩
        | some _ =>
            match order.deadline with
            | some d =>
                let timeRemaining := minutesRemaining d now
                if timeRemaining ≤ 0 then
                  ⟨false, some "Order deadline has passed", none⟩
                else if timeRemaining ≤ 5 then
                  ⟨true, some "Limited time remaining", some timeRemaining⟩
                else ⟨true, none, some timeRemaining⟩
            | none => ⟨true, none, none⟩

/-- `OrderServiceImpl.addOrderItemWithHistory`: permission check first; a
refusal is `throw new Error(reason)`, modelled as `Except.error`. -/
def addOrderItemWithHistory (env : Env) (st : OrderServiceState)
    (orderId participantId : String) (request : AddOrderItemRequest)
    (now : Nat) (freshItemId freshModId : String) :
    OrderServiceState × Except String (Option OrderItem) :=
  let permission := checkModificationPermission st orderId participantId now
  if !permission.canModify then
    (st, .error (permission.reason.getD "Cannot modify order"))
  else
    let r := addOrderItem env st orderId participantId request now freshItemId
    match r.2 with
    | none => (r.1, .ok none)
    | some item =>
        match (mapGet r.1.orders orderId).bind
            (fun o => o.participants.find? (fun p => p.id == participantId)) with
        | none => (r.1, .ok (some item))
        | some participant =>
            let st2 := recordModification r.1 orderId participantId
              participant.nickname .item_added
              ("Added " ++ toString item.quantity ++ "x " ++ item.menuItemName)
              freshModId now
            (st2, .ok (some item))

/-- `OrderServiceImpl.updateOrderItemWithHistory`. -/
def updateOrderItemWithHistory (st : OrderServiceState)
    (orderId participantId itemId : String) (request : UpdateOrderItemRequest)
    (now : Nat) (freshModId : String) :
    OrderServiceState × Except String (Option OrderItem) :=
  let permission := checkModificationPermission st orderId participantId now
  if !permission.canModify then
    (st, .error (permission.reason.getD "Cannot modify order"))
  else
    let participant0 := (mapGet st.orders orderId).bind
      (fun o => o.participants.find? (fun p => p.id == participantId))
    let oldItem := participant0.bind
      (fun p => p.items.find? (fun i => i.id == itemId))
    let r := updateOrderItem st orderId participantId itemId request now
    match r.2, oldItem, participant0 with
    | some updated, some old, some participant =>
        let st2 := recordModification r.1 orderId participantId
          participant.nickname .item_updated
          ("Updated " ++ updated.menuItemName ++ ": " ++ toString old.quantity
            ++ " → " ++ toString updated.quantity)
          freshModId now
        (st2, .ok (some updated))
    | _, _, _ => (r.1, .ok r.2)

/-- `OrderServiceImpl.removeOrderItemWithHistory`. -/
def removeOrderItemWithHistory (st : OrderServiceState)
    (orderId participantId itemId : String) (now : Nat)
    (freshModId : String) : OrderServiceState × Except String Bool :=
  let permission := checkModificationPermission st orderId participantId now
  if !permission.canModify then
    (st, .error (permission.reason.getD "Cannot modify order"))
  else
    let participant0 := (mapGet st.orders orderId).bind
      (fun o => o.participants.find? (fun p => p.id == participantId))
    let itemToRemove := participant0.bind
      (fun p => p.items.find? (fun i => i.id == itemId))
    let r := removeOrderItem st orderId participantId itemId now
    match r.2, itemToRemove, participant0 with
    | true, some item, some participant =>
        let st2 := recordModification r.1 orderId participantId
          participant.nickname .item_removed
          ("Removed " ++ toString item.quantity ++ "x " ++ item.menuItemName)
          freshModId now
        (st2, .ok true)
    | _, _, _ => (r.1, .ok r.2)

/-- Insertion of a record into a timestamp-descending list, modelling the
placement done by `sort((a, b) => b.timestamp - a.timestamp)`. -/
def insertTsDesc (x : OrderModification) :
    List OrderModification → List OrderModification
  | [] => [x]
  | y :: ys =>
      if y.timestamp < x.timestamp then x :: y :: ys else y :: insertTsDesc x ys

/-- Sorting by timestamp, newest first. -/
def sortTsDesc (l : List OrderModification) : List OrderModification :=
  l.foldr insertTsDesc []

/-- `OrderModificationServiceImpl.getOrderModificationHistory`. -/
def getOrderModificationHistory (st : OrderServiceState) (orderId : String) :
    List OrderModification :=
  sortTsDesc ((mapGet st.modifications orderId).getD [])

/-- `OrderModificationServiceImpl.getParticipantModificationHistory`: filter
every order's records by participant id, then sort newest first. -/
def getParticipantModificationHistory (st : OrderServiceState)
    (participantId : String) : List OrderModification :=
  sortTsDesc
    (st.modifications.foldl
      (fun acc e => acc ++ e.2.filter (fun m => m.participantId == participantId))
      [])

/-! ### The totals read model (`calculateOrderTotals`) -/

/-- One entry of the totals breakdown; `participants` is the JavaScript
`Set` of participant ids in insertion order, and `participantCount` its
size. -/
structure OrderTotalsBreakdown where
  itemId : String
  itemName : String
  totalQuantity : Int
  totalAmount : Int
  participantCount : Nat
  participants : List String
  deriving DecidableEq, Repr

/-- `OrderTotals` (its `averagePerParticipant` field is floating-point
division and is not modelled; no claim reads it). -/
structure OrderTotals where
  totalParticipants : Nat
  totalItems : Int
  totalAmount : Int
  itemBreakdown : List OrderTotalsBreakdown
  deriving DecidableEq, Repr

/-- One step of the totals accumulation: add to the existing entry
(`participants.add(participant.id)` then `size`) or start a fresh entry. -/
def totalsStep (p : OrderParticipant) (m : List OrderTotalsBreakdown)
    (item : OrderItem) : List OrderTotalsBreakdown :=
  match m with
  | [] => [⟨item.menuItemId, item.menuItemName, item.quantity, item.totalPrice,
           1, [p.id]⟩]
  | b :: rest =>
      if b.itemId == item.menuItemId then
        let parts := insertIfAbsent b.participants p.id
        { b with totalQuantity := b.totalQuantity + item.quantity,
                 totalAmount := b.totalAmount + item.totalPrice,
                 participantCount := parts.length,
                 participants := parts } :: rest
      else b :: totalsStep p rest item

/-- The totals breakdown over all participants' items. -/
def totalsBreakdown (ps : List OrderParticipant) : List OrderTotalsBreakdown :=
  ps.foldl (fun m p => p.items.foldl (totalsStep p) m) []

/-- `OrderModificationServiceImpl.calculateOrderTotals`. -/
def calculateOrderTotals (order : GroupOrder) : OrderTotals :=
  { totalParticipants := order.participants.length
    totalItems := totalItemsOf order.participants
    totalAmount := sumPartAmounts order.participants
    itemBreakdown := totalsBreakdown order.participants }

/-! ### The totals invariant of spec §8 (claim C1) -/

/-- A participant's cached `totalAmount` equals the sum of its items'
`totalPrice`. -/
def participantConsistent (p : OrderParticipant) : Prop :=
  p.totalAmount = sumItemPrices p.items

/-- An order's cached `summary.totalAmount` equals the sum of its
participants' `totalAmount`, and every participant is itself consistent. -/
def orderConsistent (o : GroupOrder) : Prop :=
  o.summary.totalAmount = sumPartAmounts o.participants ∧
    ∀ p ∈ o.participants, participantConsistent p

/-- Every order in the store is consistent. -/
def storeConsistent (st : OrderServiceState) : Prop :=
  ∀ e ∈ st.orders, orderConsistent e.2
instance (p : OrderParticipant) : Decidable (participantConsistent p) := by
  unfold participantConsistent
  infer_instance

instance (o : GroupOrder) : Decidable (orderConsistent o) := by
  unfold orderConsistent
  exact instDecidableAnd

instance (st : OrderServiceState) : Decidable (storeConsistent st) := by
  unfold storeConsistent
  infer_instance

/-! ### Claim-level predicates for the lifecycle (claim C3) -/

/-- A non-active (closed or expired) order that is still present after a
transition keeps its status. -/
def preservesTerminalStatus (st st2 : OrderServiceState) : Prop :=
  ∀ oid o o2, mapGet st.orders oid = some o → o.status ≠ .active →
    mapGet st2.orders oid = some o2 → o2.status = o.status

/-- A non-active order stays present with the same status (used for the
sweep, which never deletes orders). -/
def keepsTerminal (st st2 : OrderServiceState) : Prop :=
  ∀ oid o, mapGet st.orders oid = some o → o.status ≠ .active →
    ∃ o2, mapGet st2.orders oid = some o2 ∧ o2.status = o.status

/-- Store coherence: every stored order's `id` field equals its map key.
`createGroupOrder` establishes it and every operation preserves it. -/
def idCoherent (st : OrderServiceState) : Prop :=
  ∀ e ∈ st.orders, e.2.id = e.1

/-- The keys of the order store are pairwise distinct — a JavaScript `Map`
cannot hold the same key twice. -/
def orderKeysNodup (st : OrderServiceState) : Prop :=
  (st.orders.map Prod.fst).Nodup

instance (st : OrderServiceState) : Decidable (idCoherent st) := by
  unfold idCoherent
  infer_instance

instance (st : OrderServiceState) : Decidable (orderKeysNodup st) := by
  unfold orderKeysNodup
  exact List.nodupDecidable _

/-! ### Claim-level readings of the breakdowns (claim C6) -/

/-- Specification-side reading for claim C6: the nicknames contributed to
menu item `k`, one occurrence per order item with that id, in traversal
order. -/
def nicknamesPerItem (ps : List OrderParticipant) (k : String) :
    List String :=
  ps.flatMap
    (fun p => (p.items.filter (fun i => i.menuItemId == k)).map
      (fun _ => p.nickname))

/-- Specification-side reading for claim C6: the ids of the participants,
one occurrence per order item with menu item id `k`. -/
def idsPerItem (ps : List OrderParticipant) (k : String) : List String :=
  ps.flatMap
    (fun p => (p.items.filter (fun i => i.menuItemId == k)).map
      (fun _ => p.id))

/-- First-occurrence deduplication, the list content of a JavaScript `Set`
fed by repeated `add`. -/
def dedupFirst (l : List String) : List String :=
  l.foldl insertIfAbsent []

/-- The nickname list of the summary breakdown entry for menu item `k`
(empty when there is no entry). -/
def summaryPartsAt (m : List OrderItemBreakdown) (k : String) :
    List String :=
  ((m.find? (fun b => b.menuItemId == k)).map
    (fun b => b.participants)).getD []

/-- The participant-id set of the totals breakdown entry for menu item `k`
(empty when there is no entry). -/
def totalsPartsAt (m : List OrderTotalsBreakdown) (k : String) :
    List String :=
  ((m.find? (fun b => b.itemId == k)).map (fun b => b.participants)).getD []

/-- The `participantCount` of the totals breakdown entry for `k`. -/
def totalsCountAt (m : List OrderTotalsBreakdown) (k : String) : Nat :=
  ((m.find? (fun b => b.itemId == k)).map
    (fun b => b.participantCount)).getD 0

/-! ### Concrete fixtures used by witnesses and counterexamples -/

/-- A small menu catalog fixture. -/
def menuFix : Menu :=
  ⟨"m1", [⟨"X", "Fried rice", 50, true⟩, ⟨"Y", "Soup", 30, true⟩]⟩

/-- Environment fixture: one menu, one registered user, one guest session. -/
def envFix : Env := ⟨[("m1", menuFix)], ["u1"], ["g1"]⟩

/-- An order item fixture: two portions of menu item `X` at price 50. -/
def itemFix : OrderItem := ⟨"i1", "X", "Fried rice", 50, 2, [], 100, none⟩

/-- A participant holding `itemFix`. -/
def aliceFix : OrderParticipant :=
  ⟨"p1", none, none, "alice", [itemFix], 100, 0, 0⟩

/-- An active order fixture with one participant and a consistent summary. -/
def orderFix : GroupOrder :=
  { id := "o1", orderCode := "123456", menuId := "m1", createdBy := "u1"
    title := "lunch", description := none, status := .active
    deadline := some 600000000, createdAt := 0, updatedAt := 0
    closedAt := none, participants := [aliceFix]
    summary := ⟨1, 2, 100, [⟨"X", "Fried rice", 2, 100, ["alice"]⟩], 0⟩
    settings := ⟨true, some 5, true⟩ }

/-- The store holding `orderFix`. -/
def stFix : OrderServiceState :=
  { orders := [("o1", orderFix)], orderCodeIndex := [("123456", "o1")]
    modifications := [], identities := [] }

/-- The same order with `maxParticipants := some 0`: per the claim the cap
is "set and already reached", but JavaScript truthiness disables the
check. -/
def orderCapZero : GroupOrder :=
  { orderFix with participants := [], settings := ⟨true, some 0, true⟩
                  summary := ⟨0, 0, 0, [], 0⟩ }

/-- Store holding `orderCapZero`. -/
def stCapZero : OrderServiceState :=
  { stFix with orders := [("o1", orderCapZero)] }

/-- A closed variant of `orderFix`. -/
def orderClosedFix : GroupOrder :=
  { orderFix with status := .closed, closedAt := some 100 }

/-- Store holding the closed order. -/
def stClosedFix : OrderServiceState :=
  { stFix with orders := [("o1", orderClosedFix)] }

/-- An active order whose deadline `1030000` is strictly after the probe
instant `1000000`, but by less than one minute. -/
def orderSoonFix : GroupOrder := { orderFix with deadline := some 1030000 }

/-- Store holding `orderSoonFix`. -/
def stSoonFix : OrderServiceState :=
  { stFix with orders := [("o1", orderSoonFix)] }

/-- A participant holding two distinct order items that reference the same
menu item `X`. -/
def aliceTwoFix : OrderParticipant :=
  ⟨"p1", none, none, "alice",
   [itemFix, ⟨"i2", "X", "Fried rice", 50, 1, [], 50, none⟩], 150, 0, 0⟩

/-- An order holding `aliceTwoFix` (for the totals read model). -/
def orderTwoFix : GroupOrder := { orderFix with participants := [aliceTwoFix] }

/-- An active order, past deadline, with `autoCloseOnDeadline` set. -/
def orderDueFix : GroupOrder := { orderFix with deadline := some 10 }

/-- Store with the due order — one sweep must expire it. -/
def stDueFix : OrderServiceState :=
  { stFix with orders := [("o1", orderDueFix)] }

/-- A modification record fixture with a chosen timestamp. -/
def modFix (i : String) (pid : String) (ts : Nat) : OrderModification :=
  ⟨i, "o1", pid, "alice", .item_added, ts, "Added"⟩

/-- A store whose modification log for `"o1"` is not timestamp-sorted. -/
def stModsFix : OrderServiceState :=
  { stFix with modifications :=
      [("o1", [modFix "a" "p1" 5, modFix "b" "p2" 9, modFix "c" "p1" 7]),
       ("o2", [modFix "d" "p1" 8])] }

/-! ### Map lemmas -/

theorem mapGet_mapSet_self {α : Type} (m : List (String × α)) (k : String)
    (v : α) : mapGet (mapSet m k v) k = some v := by
  induction m with
  | nil => simp [mapGet, mapSet]
  | cons e rest ih =>
      obtain ⟨k1, v1⟩ := e
      by_cases h : k1 == k
      · simp [mapGet, mapSet, h]
      · simp [mapGet, mapSet, h, ih]


theorem mapGet_mapSet_ne {α : Type} (m : List (String × α)) (k k2 : String)
    (v : α) (h : k ≠ k2) : mapGet (mapSet m k v) k2 = mapGet m k2 := by
  have hkk : (k == k2) = false := by simpa using h
  induction m with
  | nil => simp [mapGet, mapSet, hkk]
  | cons e rest ih =>
      obtain ⟨k1, v1⟩ := e
      by_cases h1 : k1 == k
      · have hk1 : k1 = k := by simpa using h1
        subst hk1
        simp [mapGet, mapSet, h1, hkk]
      · simp [mapGet, mapSet, h1, ih]


theorem mem_of_mapGet_eq_some {α : Type} {m : List (String × α)} {k : String}
    {v : α} (h : mapGet m k = some v) : (k, v) ∈ m := by
  induction m with
  | nil => simp [mapGet] at h
  | cons e rest ih =>
      obtain ⟨k1, v1⟩ := e
      by_cases h1 : k1 == k
      · have : k1 = k := by simpa using h1
        subst this
        simp [mapGet, h1] at h
        subst h
        exact List.mem_cons_self _ _
      · simp [mapGet, h1] at h
        exact List.mem_cons_of_mem _ (ih h)


theorem mem_mapSet {α : Type} {m : List (String × α)} {k : String} {v : α}
    {e : String × α} (h : e ∈ mapSet m k v) : e = (k, v) ∨ e ∈ m := by
  induction m with
  | nil => simpa [mapSet] using h
  | cons e1 rest ih =>
      obtain ⟨k1, v1⟩ := e1
      by_cases h1 : k1 == k
      · simp [mapSet, h1] at h
        rcases h with h | h
        · exact Or.inl h
        · exact Or.inr (List.mem_cons_of_mem _ h)
      · simp [mapSet, h1] at h
        rcases h with h | h
        · exact Or.inr (by simp [h])
        · rcases ih h with h2 | h2
          · exact Or.inl h2
          · exact Or.inr (List.mem_cons_of_mem _ h2)


/-! ## Theorems -/

theorem mapSet_mapSet_same {α : Type} (m : List (String × α)) (k : String)
    (v w : α) : mapSet (mapSet m k v) k w = mapSet m k w := by
  induction m with
  | nil => simp [mapSet]
  | cons e rest ih =>
      obtain ⟨k1, v1⟩ := e
      by_cases h1 : k1 == k
      · simp [mapSet, h1]
      · simp [mapSet, h1, ih]

theorem sumItemPrices_append (l : List OrderItem) (i : OrderItem) :
    sumItemPrices (l ++ [i]) = sumItemPrices l + i.totalPrice := by
  simp [sumItemPrices, List.foldl_append]

theorem mem_replaceFirst {α : Type} {l : List α} {pred : α → Bool} {v x : α}
    (h : x ∈ replaceFirst l pred v) : x = v ∨ x ∈ l := by
  induction l with
  | nil => simp [replaceFirst] at h
  | cons y ys ih =>
      by_cases hy : pred y
      · simp [replaceFirst, hy] at h
        rcases h with h | h
        · exact Or.inl h
        · exact Or.inr (List.mem_cons_of_mem _ h)
      · simp [replaceFirst, hy] at h
        rcases h with h | h
        · exact Or.inr (by simp [h])
        · rcases ih h with h2 | h2
          · exact Or.inl h2
          · exact Or.inr (List.mem_cons_of_mem _ h2)

theorem mem_of_removeFirst {α : Type} {l : List α} {pred : α → Bool}
    {x : α} {rest : List α} (h : removeFirst l pred = some (x, rest)) :
    ∀ y ∈ rest, y ∈ l := by
  induction l generalizing x rest with
  | nil => simp [removeFirst] at h
  | cons z zs ih =>
      by_cases hz : pred z
      · simp [removeFirst, hz] at h
        intro y hy
        exact List.mem_cons_of_mem _ (h.2 ▸ hy)
      · simp [removeFirst, hz] at h
        rcases h with ⟨r, hr, hx, hrest⟩
        intro y hy
        rw [← hrest.2] at hy
        rcases List.mem_cons.mp hy with h2 | h2
        · simp [h2]
        · exact List.mem_cons_of_mem _ (ih hx y h2)

theorem validateOrderCode_order_mem {st : OrderServiceState} {code : String}
    {now : Nat} {order : GroupOrder}
    (h : (validateOrderCode st code now).order = some order) :
    ∃ k, (k, order) ∈ st.orders := by
  unfold validateOrderCode at h
  split at h
  · simp at h
  · rename_i orderId hidx
    split at h
    · simp at h
    · rename_i o hget
      refine ⟨orderId, ?_⟩
      split at h <;> [skip; split at h] <;>
        · simp at h
          exact h ▸ mem_of_mapGet_eq_some hget

theorem orders_identityGuestStep (env : Env) (st : OrderServiceState)
    (request : JoinOrderRequest) (fid : String) (now : Nat) :
    (identityGuestStep env st request fid now).1.orders = st.orders := by
  unfold identityGuestStep createParticipantIdentity
  split
  · split
    · rfl
    · split <;> rfl
  · rfl

theorem orders_validateParticipantIdentity (env : Env)
    (st : OrderServiceState) (request : JoinOrderRequest) (fid : String)
    (now : Nat) :
    (validateParticipantIdentity env st request fid now).1.orders =
      st.orders := by
  unfold validateParticipantIdentity
  split
  · rfl
  · split
    · split
      · rfl
      · split
        · rfl
        · exact orders_identityGuestStep env st request fid now
    · exact orders_identityGuestStep env st request fid now

theorem orders_updateParticipantActivity (st : OrderServiceState)
    (pid : String) (now : Nat) :
    (updateParticipantActivity st pid now).orders = st.orders := by
  unfold updateParticipantActivity
  split <;> rfl

/-- After writing an order whose participants are individually consistent
and recomputing its summary, the whole store is consistent again. -/
theorem storeConsistent_set_calc (st : OrderServiceState) (oid : String)
    (order1 : GroupOrder) (now : Nat) (h : storeConsistent st)
    (hp : ∀ p ∈ order1.participants, participantConsistent p) :
    storeConsistent
      (calculateOrderSummary
        { st with orders := mapSet st.orders oid order1 } oid now).1 := by
  have hget : mapGet (mapSet st.orders oid order1) oid = some order1 :=
    mapGet_mapSet_self st.orders oid order1
  simp only [calculateOrderSummary, hget]
  intro e he
  simp only [mapSet_mapSet_same] at he
  rcases mem_mapSet he with hev | he2
  · rw [hev]
    exact ⟨rfl, hp⟩
  · exact h e he2

theorem storeConsistent_of_orders_eq {st2 st : OrderServiceState}
    (he : st2.orders = st.orders) (h : storeConsistent st) :
    storeConsistent st2 := by
  intro e hm
  rw [he] at hm
  exact h e hm

theorem storeConsistent_joinOrder (env : Env) (st : OrderServiceState)
    (request : JoinOrderRequest) (now : Nat) (fid pid mid : String)
    (h : storeConsistent st) :
    storeConsistent (joinOrder env st request now fid pid mid).1 := by
  simp only [joinOrder]
  split
  · exact h
  · split
    · exact h
    · rename_i order horder
      split
      · exact storeConsistent_of_orders_eq
          (orders_validateParticipantIdentity env st request fid now) h
      · split
        · exact storeConsistent_of_orders_eq
            (orders_validateParticipantIdentity env st request fid now) h
        · split
          · exact storeConsistent_of_orders_eq
              (orders_validateParticipantIdentity env st request fid now) h
          · split
            · exact storeConsistent_of_orders_eq
                (orders_validateParticipantIdentity env st request fid now) h
            · refine storeConsistent_of_orders_eq
                (orders_updateParticipantActivity _ _ _) ?_
              refine storeConsistent_of_orders_eq rfl ?_
              refine storeConsistent_set_calc _ order.id _ now
                (storeConsistent_of_orders_eq
                  (orders_validateParticipantIdentity env st request fid now) h)
                ?_
              intro p hp
              rcases List.mem_append.mp hp with hm | hm
              · obtain ⟨k, hk⟩ := validateOrderCode_order_mem horder
                exact (h _ hk).2 p hm
              · have : p = { id := pid, userId := request.userId
                             guestSessionId := request.guestSessionId
                             nickname := request.nickname, items := []
                             totalAmount := 0, joinedAt := now
                             lastModifiedAt := now } := by simpa using hm
                rw [this]
                rfl

theorem storeConsistent_leaveOrder (st : OrderServiceState)
    (oid pid : String) (now : Nat) (mid : String) (h : storeConsistent st) :
    storeConsistent (leaveOrder st oid pid now mid).1 := by
  simp only [leaveOrder]
  split
  · exact h
  · rename_i order hget
    split
    · exact h
    · rename_i r hrem
      refine storeConsistent_of_orders_eq rfl ?_
      refine storeConsistent_set_calc st oid _ now h ?_
      intro p hp
      exact (h _ (mem_of_mapGet_eq_some hget)).2 p
        (mem_of_removeFirst hrem p hp)

theorem storeConsistent_addOrderItem (env : Env) (st : OrderServiceState)
    (oid pid : String) (request : AddOrderItemRequest) (now : Nat)
    (iid : String) (h : storeConsistent st) :
    storeConsistent (addOrderItem env st oid pid request now iid).1 := by
  simp only [addOrderItem]
  split
  · exact h
  · rename_i order hget
    split
    · exact h
    · split
      · exact h
      · split
        · exact h
        · rename_i participant hfind
          split
          · exact h
          · split
            · exact h
            · rename_i menuItem hmi
              split
              · exact h
              · refine storeConsistent_set_calc st oid _ now h ?_
                intro p hp
                rcases mem_replaceFirst hp with hv | hm
                · rw [hv]
                  show participant.totalAmount +
                      itemTotalPrice menuItem.price request.quantity
                        request.customizations =
                    sumItemPrices (participant.items ++ [_])
                  rw [sumItemPrices_append,
                    (h _ (mem_of_mapGet_eq_some hget)).2 participant
                      (List.mem_of_find?_eq_some hfind)]
                · exact (h _ (mem_of_mapGet_eq_some hget)).2 p hm

theorem storeConsistent_updateOrderItem (st : OrderServiceState)
    (oid pid iid : String) (request : UpdateOrderItemRequest) (now : Nat)
    (h : storeConsistent st) :
    storeConsistent (updateOrderItem st oid pid iid request now).1 := by
  simp only [updateOrderItem]
  split
  · exact h
  · rename_i order hget
    split
    · exact h
    · split
      · exact h
      · split
        · exact h
        · rename_i participant hfind
          split
          · exact h
          · refine storeConsistent_set_calc st oid _ now h ?_
            intro p hp
            rcases mem_replaceFirst hp with hv | hm
            · rw [hv]
              rfl
            · exact (h _ (mem_of_mapGet_eq_some hget)).2 p hm

theorem storeConsistent_removeOrderItem (st : OrderServiceState)
    (oid pid iid : String) (now : Nat) (h : storeConsistent st) :
    storeConsistent (removeOrderItem st oid pid iid now).1 := by
  simp only [removeOrderItem]
  split
  · exact h
  · rename_i order hget
    split
    · exact h
    · split
      · exact h
      · split
        · exact h
        · rename_i participant hfind
          split
          · exact h
          · refine storeConsistent_set_calc st oid _ now h ?_
            intro p hp
            rcases mem_replaceFirst hp with hv | hm
            · rw [hv]
              rfl
            · exact (h _ (mem_of_mapGet_eq_some hget)).2 p hm

/-- C1: after every mutating operation on an order (joinOrder, leaveOrder,
addOrderItem, updateOrderItem, removeOrderItem), for every order in the
store, `summary.totalAmount` equals the sum of `participant.totalAmount`
over the order's participants, and each participant's `totalAmount` equals
the sum of `item.totalPrice` over that participant's items. -/
theorem claim_C1_totals_invariant (env : Env) (st : OrderServiceState)
    (request : JoinOrderRequest) (areq : AddOrderItemRequest)
    (ureq : UpdateOrderItemRequest) (now : Nat)
    (fid pid mid oid pid2 iid mid2 : String) (h : storeConsistent st) :
    storeConsistent (joinOrder env st request now fid pid mid).1 ∧
    storeConsistent (leaveOrder st oid pid2 now mid2).1 ∧
    storeConsistent (addOrderItem env st oid pid2 areq now iid).1 ∧
    storeConsistent (updateOrderItem st oid pid2 iid ureq now).1 ∧
    storeConsistent (removeOrderItem st oid pid2 iid now).1 :=
  ⟨storeConsistent_joinOrder env st request now fid pid mid h,
   storeConsistent_leaveOrder st oid pid2 now mid2 h,
   storeConsistent_addOrderItem env st oid pid2 areq now iid h,
   storeConsistent_updateOrderItem st oid pid2 iid ureq now h,
   storeConsistent_removeOrderItem st oid pid2 iid now h⟩

/-- Witness for C1: the invariant holds of the concrete store `stFix` and
is preserved by each of the five operations run against it. -/
theorem claim_C1_totals_invariant_witness :
    storeConsistent
      (joinOrder envFix stFix ⟨"123456", "bobby", none, none⟩ 5
        "id9" "p9" "mo9").1 ∧
    storeConsistent (leaveOrder stFix "o1" "p1" 5 "mo9").1 ∧
    storeConsistent
      (addOrderItem envFix stFix "o1" "p1" ⟨"Y", 3, none, none⟩ 5 "i1").1 ∧
    storeConsistent
      (updateOrderItem stFix "o1" "p1" "i1" ⟨some 4, none, none⟩ 5).1 ∧
    storeConsistent (removeOrderItem stFix "o1" "p1" "i1" 5).1 :=
  claim_C1_totals_invariant envFix stFix ⟨"123456", "bobby", none, none⟩
    ⟨"Y", 3, none, none⟩ ⟨some 4, none, none⟩ 5 "id9" "p9" "mo9" "o1" "p1"
    "i1" "mo9" (by decide)

/-! ### Status preservation (claim C3) -/

theorem mapGet_mapDelete_self {α : Type} (m : List (String × α))
    (k : String) : mapGet (mapDelete m k) k = none := by
  induction m with
  | nil => rfl
  | cons e rest ih =>
      obtain ⟨k1, v1⟩ := e
      simp only [mapDelete, List.filter_cons] at ih ⊢
      by_cases h1 : k1 = k
      · subst h1
        simpa using ih
      · have hb : ((k1, v1).1 != k) = true := by simpa using h1
        rw [if_pos hb]
        have hbeq : (k1 == k) = false := by simpa using h1
        simpa [mapGet, hbeq] using ih

theorem mapGet_mapDelete_ne {α : Type} (m : List (String × α))
    (k oid : String) (h : k ≠ oid) :
    mapGet (mapDelete m k) oid = mapGet m oid := by
  induction m with
  | nil => rfl
  | cons e rest ih =>
      obtain ⟨k1, v1⟩ := e
      simp only [mapDelete, List.filter_cons] at ih ⊢
      by_cases h1 : k1 = k
      · subst h1
        have hbeq : (k1 == oid) = false := by simpa using h
        simpa [mapGet, hbeq] using ih
      · have hb : ((k1, v1).1 != k) = true := by simpa using h1
        rw [if_pos hb]
        by_cases h2 : k1 == oid
        · simp [mapGet, h2]
        · simp only [mapGet, h2]
          exact ih

theorem pts_of_orders_eq {st st2 : OrderServiceState}
    (he : st2.orders = st.orders) : preservesTerminalStatus st st2 := by
  intro oid o o2 hget hst hget2
  rw [he, hget] at hget2
  injection hget2 with h2
  rw [← h2]

theorem pts_congr {st st2 st3 : OrderServiceState}
    (h : preservesTerminalStatus st st2) (he : st3.orders = st2.orders) :
    preservesTerminalStatus st st3 := by
  intro oid o o2 hget hst hget2
  rw [he] at hget2
  exact h oid o o2 hget hst hget2

theorem pts_set {st st2 : OrderServiceState} {k : String} {v : GroupOrder}
    (he : st2.orders = mapSet st.orders k v)
    (hv : ∀ o, mapGet st.orders k = some o → o.status ≠ .active →
      v.status = o.status) :
    preservesTerminalStatus st st2 := by
  intro oid o o2 hget hst hget2
  by_cases hk : k = oid
  · subst hk
    rw [he, mapGet_mapSet_self] at hget2
    injection hget2 with h2
    rw [← h2]
    exact hv o hget hst
  · rw [he, mapGet_mapSet_ne _ _ _ _ hk, hget] at hget2
    injection hget2 with h2
    rw [← h2]

/-- Writing an order at a key and recomputing its summary amounts to a
single map write of the order with the fresh summary. -/
theorem orders_set_calc (st : OrderServiceState) (oid : String)
    (order1 : GroupOrder) (now : Nat) :
    (calculateOrderSummary
        { st with orders := mapSet st.orders oid order1 } oid now).1.orders =
      mapSet st.orders oid
        { order1 with summary := computeSummary order1.participants now
                      updatedAt := now } := by
  simp only [calculateOrderSummary, mapGet_mapSet_self, mapSet_mapSet_same]

theorem validateOrderCode_order_mapGet {st : OrderServiceState}
    {code : String} {now : Nat} {order : GroupOrder}
    (h : (validateOrderCode st code now).order = some order) :
    ∃ k, mapGet st.orders k = some order := by
  unfold validateOrderCode at h
  split at h
  · simp at h
  · rename_i orderId hidx
    split at h
    · simp at h
    · rename_i o hget
      refine ⟨orderId, ?_⟩
      split at h <;> [skip; split at h] <;>
        · simp at h
          exact h ▸ hget

theorem pts_calculateOrderSummary (st : OrderServiceState) (oid : String)
    (now : Nat) :
    preservesTerminalStatus st (calculateOrderSummary st oid now).1 := by
  unfold calculateOrderSummary
  split
  · exact pts_of_orders_eq rfl
  · rename_i order hget
    refine pts_set rfl ?_
    intro o ho hs
    have h2 : order = o := by injection hget.symm.trans ho
    rw [h2]

theorem pts_expireOrder (st : OrderServiceState) (oid : String) (now : Nat) :
    preservesTerminalStatus st (expireOrder st oid now).1 := by
  unfold expireOrder
  split
  · exact pts_of_orders_eq rfl
  · rename_i order hget
    split
    · exact pts_of_orders_eq rfl
    · rename_i hact
      refine pts_set rfl ?_
      intro o ho hs
      have h2 : order = o := by injection hget.symm.trans ho
      exact absurd (h2 ▸ not_not.mp hact) hs

theorem pts_closeOrder (st : OrderServiceState) (oid uid : String)
    (now : Nat) :
    preservesTerminalStatus st (closeOrder st oid uid now).1 := by
  unfold closeOrder
  split
  · exact pts_of_orders_eq rfl
  · rename_i order hget
    split
    · exact pts_of_orders_eq rfl
    · split
      · exact pts_of_orders_eq rfl
      · rename_i hcr hact
        refine pts_set rfl ?_
        intro o ho hs
        have h2 : order = o := by injection hget.symm.trans ho
        exact absurd (h2 ▸ not_not.mp hact) hs

theorem pts_updateOrder (st : OrderServiceState) (oid uid : String)
    (request : GroupOrderUpdateRequest) (now : Nat) :
    preservesTerminalStatus st (updateOrder st oid uid request now).1 := by
  unfold updateOrder
  split
  · exact pts_of_orders_eq rfl
  · rename_i order hget
    split
    · exact pts_of_orders_eq rfl
    · split
      · exact pts_of_orders_eq rfl
      · refine pts_set rfl ?_
        intro o ho hs
        have h2 : order = o := by injection hget.symm.trans ho
        rw [h2]

theorem pts_deleteOrder (st : OrderServiceState) (oid uid : String) :
    preservesTerminalStatus st (deleteOrder st oid uid).1 := by
  unfold deleteOrder
  split
  · exact pts_of_orders_eq rfl
  · rename_i order hget
    split
    · exact pts_of_orders_eq rfl
    · intro oid2 o o2 hget2 hst hget3
      by_cases hk : oid = oid2
      · subst hk
        rw [show (({ st with
              orders := mapDelete st.orders oid
              orderCodeIndex := mapDelete st.orderCodeIndex order.orderCode },
            true) : OrderServiceState × Bool).1.orders
            = mapDelete st.orders oid from rfl,
          mapGet_mapDelete_self] at hget3
        exact absurd hget3 (by simp)
      · rw [show (({ st with
              orders := mapDelete st.orders oid
              orderCodeIndex := mapDelete st.orderCodeIndex order.orderCode },
            true) : OrderServiceState × Bool).1.orders
            = mapDelete st.orders oid from rfl,
          mapGet_mapDelete_ne _ _ _ hk, hget2] at hget3
        injection hget3 with h3
        rw [← h3]

theorem pts_joinOrder (env : Env) (st : OrderServiceState)
    (request : JoinOrderRequest) (now : Nat) (fid pid mid : String)
    (hid : idCoherent st) :
    preservesTerminalStatus st (joinOrder env st request now fid pid mid).1 := by
  simp only [joinOrder]
  split
  · exact pts_of_orders_eq rfl
  · split
    · exact pts_of_orders_eq rfl
    · rename_i order horder
      split
      · exact pts_of_orders_eq
          (orders_validateParticipantIdentity env st request fid now)
      · split
        · exact pts_of_orders_eq
            (orders_validateParticipantIdentity env st request fid now)
        · split
          · exact pts_of_orders_eq
              (orders_validateParticipantIdentity env st request fid now)
          · split
            · exact pts_of_orders_eq
                (orders_validateParticipantIdentity env st request fid now)
            · refine pts_congr ?_ (orders_updateParticipantActivity _ _ _)
              refine pts_congr ?_ (rfl :
                (recordModification _ order.id pid request.nickname
                  .participant_joined (request.nickname ++ " joined the order")
                  mid now).orders = _)
              refine pts_set
                (Eq.trans (orders_set_calc _ order.id _ now)
                  (by rw [orders_validateParticipantIdentity])) ?_
              intro o ho hs
              obtain ⟨k, hk⟩ := validateOrderCode_order_mapGet horder
              have hkid : order.id = k := hid _ (mem_of_mapGet_eq_some hk)
              rw [hkid, hk] at ho
              injection ho with h2
              rw [← h2]

theorem pts_leaveOrder (st : OrderServiceState) (oid pid : String)
    (now : Nat) (mid : String) :
    preservesTerminalStatus st (leaveOrder st oid pid now mid).1 := by
  simp only [leaveOrder]
  split
  · exact pts_of_orders_eq rfl
  · rename_i order hget
    split
    · exact pts_of_orders_eq rfl
    · refine pts_congr ?_ (rfl : (recordModification _ oid pid _
        .participant_left _ mid now).orders = _)
      refine pts_set (orders_set_calc st oid _ now) ?_
      intro o ho hs
      have h2 : order = o := by injection hget.symm.trans ho
      rw [h2]

theorem pts_addOrderItem (env : Env) (st : OrderServiceState)
    (oid pid : String) (request : AddOrderItemRequest) (now : Nat)
    (iid : String) :
    preservesTerminalStatus st (addOrderItem env st oid pid request now iid).1 := by
  simp only [addOrderItem]
  split
  · exact pts_of_orders_eq rfl
  · rename_i order hget
    split
    · exact pts_of_orders_eq rfl
    · split
      · exact pts_of_orders_eq rfl
      · split
        · exact pts_of_orders_eq rfl
        · split
          · exact pts_of_orders_eq rfl
          · split
            · exact pts_of_orders_eq rfl
            · split
              · exact pts_of_orders_eq rfl
              · refine pts_set (orders_set_calc st oid _ now) ?_
                intro o ho hs
                have h2 : order = o := by injection hget.symm.trans ho
                rw [h2]

theorem pts_updateOrderItem (st : OrderServiceState) (oid pid iid : String)
    (request : UpdateOrderItemRequest) (now : Nat) :
    preservesTerminalStatus st (updateOrderItem st oid pid iid request now).1 := by
  simp only [updateOrderItem]
  split
  · exact pts_of_orders_eq rfl
  · rename_i order hget
    split
    · exact pts_of_orders_eq rfl
    · split
      · exact pts_of_orders_eq rfl
      · split
        · exact pts_of_orders_eq rfl
        · split
          · exact pts_of_orders_eq rfl
          · refine pts_set (orders_set_calc st oid _ now) ?_
            intro o ho hs
            have h2 : order = o := by injection hget.symm.trans ho
            rw [h2]

theorem pts_removeOrderItem (st : OrderServiceState) (oid pid iid : String)
    (now : Nat) :
    preservesTerminalStatus st (removeOrderItem st oid pid iid now).1 := by
  simp only [removeOrderItem]
  split
  · exact pts_of_orders_eq rfl
  · rename_i order hget
    split
    · exact pts_of_orders_eq rfl
    · split
      · exact pts_of_orders_eq rfl
      · split
        · exact pts_of_orders_eq rfl
        · split
          · exact pts_of_orders_eq rfl
          · refine pts_set (orders_set_calc st oid _ now) ?_
            intro o ho hs
            have h2 : order = o := by injection hget.symm.trans ho
            rw [h2]

theorem pts_createGroupOrder (env : Env) (st : OrderServiceState)
    (userId menuId : String) (canView : Bool) (title : String)
    (description : Option String) (deadline : Option Nat)
    (settings : OrderSettings) (freshOrderId freshOrderCode : String)
    (now : Nat) (hfresh : mapGet st.orders freshOrderId = none) :
    preservesTerminalStatus st
      (createGroupOrder env st userId menuId canView title description
        deadline settings freshOrderId freshOrderCode now).1 := by
  simp only [createGroupOrder]
  split
  · exact pts_of_orders_eq rfl
  · split
    · exact pts_of_orders_eq rfl
    · refine pts_set rfl ?_
      intro o ho hs
      rw [hfresh] at ho
      exact absurd ho (by simp)

theorem pts_addOrderItemWithHistory (env : Env) (st : OrderServiceState)
    (oid pid : String) (request : AddOrderItemRequest) (now : Nat)
    (iid mid : String) :
    preservesTerminalStatus st
      (addOrderItemWithHistory env st oid pid request now iid mid).1 := by
  simp only [addOrderItemWithHistory]
  split
  · exact pts_of_orders_eq rfl
  · split
    · exact pts_congr (pts_addOrderItem env st oid pid request now iid) rfl
    · split
      · exact pts_congr (pts_addOrderItem env st oid pid request now iid) rfl
      · exact pts_congr (pts_addOrderItem env st oid pid request now iid) rfl

theorem pts_updateOrderItemWithHistory (st : OrderServiceState)
    (oid pid iid : String) (request : UpdateOrderItemRequest) (now : Nat)
    (mid : String) :
    preservesTerminalStatus st
      (updateOrderItemWithHistory st oid pid iid request now mid).1 := by
  simp only [updateOrderItemWithHistory]
  split
  · exact pts_of_orders_eq rfl
  · split
    · exact pts_congr (pts_updateOrderItem st oid pid iid request now) rfl
    · exact pts_congr (pts_updateOrderItem st oid pid iid request now) rfl

theorem pts_removeOrderItemWithHistory (st : OrderServiceState)
    (oid pid iid : String) (now : Nat) (mid : String) :
    preservesTerminalStatus st
      (removeOrderItemWithHistory st oid pid iid now mid).1 := by
  simp only [removeOrderItemWithHistory]
  split
  · exact pts_of_orders_eq rfl
  · split
    · exact pts_congr (pts_removeOrderItem st oid pid iid now) rfl
    · exact pts_congr (pts_removeOrderItem st oid pid iid now) rfl

/-! ### The expiration sweep (claim C3, part 1) -/

theorem keepsTerminal_of_orders_eq {st st2 : OrderServiceState}
    (he : st2.orders = st.orders) : keepsTerminal st st2 := by
  intro oid o hget hst
  exact ⟨o, by rw [he, hget], rfl⟩

theorem keepsTerminal_trans {a b c : OrderServiceState}
    (h1 : keepsTerminal a b) (h2 : keepsTerminal b c) : keepsTerminal a c := by
  intro oid o hget hst
  obtain ⟨o2, hget2, hst2⟩ := h1 oid o hget hst
  obtain ⟨o3, hget3, hst3⟩ := h2 oid o2 hget2 (by rw [hst2]; exact hst)
  exact ⟨o3, hget3, hst3.trans hst2⟩

theorem keepsTerminal_expireOrder (s : OrderServiceState) (k : String)
    (now : Nat) : keepsTerminal s (expireOrder s k now).1 := by
  unfold expireOrder
  split
  · exact keepsTerminal_of_orders_eq rfl
  · rename_i order hget
    split
    · exact keepsTerminal_of_orders_eq rfl
    · rename_i hact
      intro oid o ho hs
      by_cases hk : k = oid
      · subst hk
        have h2 : order = o := by injection hget.symm.trans ho
        exact absurd (h2 ▸ not_not.mp hact) hs
      · exact ⟨o, (mapGet_mapSet_ne s.orders k oid _ hk).trans ho, rfl⟩

theorem keepsTerminal_sweepStep (now : Nat)
    (acc : OrderServiceState × List String) (e : String × GroupOrder) :
    keepsTerminal acc.1 (sweepStep now acc e).1 := by
  unfold sweepStep
  split
  · exact keepsTerminal_expireOrder acc.1 e.1 now
  · exact keepsTerminal_of_orders_eq rfl

theorem keepsTerminal_sweepFold (now : Nat) (l : List (String × GroupOrder))
    (acc : OrderServiceState × List String) :
    keepsTerminal acc.1 (l.foldl (sweepStep now) acc).1 := by
  induction l generalizing acc with
  | nil => exact keepsTerminal_of_orders_eq rfl
  | cons e rest ih =>
      exact keepsTerminal_trans (keepsTerminal_sweepStep now acc e)
        (ih (sweepStep now acc e))

theorem pts_of_keepsTerminal {st st2 : OrderServiceState}
    (h : keepsTerminal st st2) : preservesTerminalStatus st st2 := by
  intro oid o o2 hget hst hget2
  obtain ⟨o3, hget3, hst3⟩ := h oid o hget hst
  rw [hget2] at hget3
  injection hget3 with h3
  rw [← h3] at hst3
  exact hst3

theorem pts_checkAndExpireOrders (st : OrderServiceState) (now : Nat) :
    preservesTerminalStatus st (checkAndExpireOrders st now).1 :=
  pts_of_keepsTerminal (keepsTerminal_sweepFold now st.orders (st, []))

/-- Other keys are untouched by the sweep step. -/
theorem sweepStep_mapGet_ne (now : Nat)
    (acc : OrderServiceState × List String) (e : String × GroupOrder)
    (oid : String) (h : e.1 ≠ oid) :
    mapGet (sweepStep now acc e).1.orders oid = mapGet acc.1.orders oid := by
  unfold sweepStep
  split
  · unfold expireOrder
    split
    · rfl
    · split
      · rfl
      · exact mapGet_mapSet_ne _ _ _ _ h
  · rfl

theorem sweepFold_mapGet_ne (now : Nat) (l : List (String × GroupOrder))
    (acc : OrderServiceState × List String) (oid : String)
    (h : ∀ e ∈ l, e.1 ≠ oid) :
    mapGet (l.foldl (sweepStep now) acc).1.orders oid =
      mapGet acc.1.orders oid := by
  induction l generalizing acc with
  | nil => rfl
  | cons e rest ih =>
      rw [List.foldl_cons, ih _ (fun e2 he2 => h e2 (List.mem_cons_of_mem _ he2)),
        sweepStep_mapGet_ne now acc e oid (h e (List.mem_cons_self _ _))]

theorem sweepFold_ids_mono (now : Nat) (l : List (String × GroupOrder))
    (acc : OrderServiceState × List String) (x : String) (h : x ∈ acc.2) :
    x ∈ (l.foldl (sweepStep now) acc).2 := by
  induction l generalizing acc with
  | nil => exact h
  | cons e rest ih =>
      refine ih (sweepStep now acc e) ?_
      unfold sweepStep
      split
      · exact List.mem_append_left _ h
      · exact h

/-- Expiring an order that the store holds as active is a single map write
of the expired order. -/
theorem expireOrder_orders_of_active {st : OrderServiceState} {oid : String}
    {now : Nat} {order : GroupOrder}
    (hget : mapGet st.orders oid = some order)
    (hact : order.status = .active) :
    (expireOrder st oid now).1.orders =
      mapSet st.orders oid
        { order with status := .expired, closedAt := some now
                     updatedAt := now } := by
  unfold expireOrder
  rw [hget]
  dsimp only
  rw [if_neg (by simp [hact])]

/-- Core of the sweep theorem: if the list of entries still to be processed
holds the entry `(oid, o)` with pairwise-distinct keys, the current state
still stores `o` at `oid`, and the sweep predicate holds of `o`, then after
the fold the order at `oid` is expired and `oid` was collected. -/
theorem sweepFold_expires (now : Nat) (l : List (String × GroupOrder))
    (acc : OrderServiceState × List String) (oid : String) (o : GroupOrder)
    (hmem : (oid, o) ∈ l) (hnd : (l.map Prod.fst).Nodup)
    (hget : mapGet acc.1.orders oid = some o) (hp : expirePred o now = true) :
    (∃ o2, mapGet (l.foldl (sweepStep now) acc).1.orders oid = some o2 ∧
      o2.status = .expired) ∧
      oid ∈ (l.foldl (sweepStep now) acc).2 := by
  induction l generalizing acc with
  | nil => simp at hmem
  | cons e rest ih =>
      obtain ⟨k, ord⟩ := e
      rw [List.map_cons, List.nodup_cons] at hnd
      by_cases hk : k = oid
      · subst hk
        have ho : ord = o := by
          rcases List.mem_cons.mp hmem with h1 | h1
          · exact ((Prod.ext_iff.mp h1).2).symm
          · exact absurd (List.mem_map_of_mem Prod.fst h1) (by simpa using hnd.1)
        subst ho
        have hrest : ∀ e2 ∈ rest, e2.1 ≠ k := by
          intro e2 he2 hc
          exact hnd.1 (List.mem_map.mpr ⟨e2, he2, hc⟩)
        have hstep : sweepStep now acc (k, ord) =
            ((expireOrder acc.1 k now).1, acc.2 ++ [k]) := by
          unfold sweepStep
          rw [if_pos hp]
        have hact : ord.status = .active := by
          have h2 := hp
          unfold expirePred at h2
          simp at h2
          exact h2.1.1
        have hexp : mapGet (expireOrder acc.1 k now).1.orders k =
            some { ord with status := .expired, closedAt := some now
                            updatedAt := now } := by
          rw [expireOrder_orders_of_active hget hact]
          exact mapGet_mapSet_self _ _ _
        rw [List.foldl_cons, hstep]
        constructor
        · rw [sweepFold_mapGet_ne now rest _ k hrest]
          exact ⟨_, hexp, rfl⟩
        · exact sweepFold_ids_mono now rest _ k (by simp)
      · have hmem2 : (oid, o) ∈ rest := by
          rcases List.mem_cons.mp hmem with h1 | h1
          · exact absurd ((Prod.ext_iff.mp h1).1).symm hk
          · exact h1
        rw [List.foldl_cons]
        refine ih _ hmem2 hnd.2 ?_
        rw [sweepStep_mapGet_ne now acc (k, ord) oid hk]
        exact hget

/-- C3: (1) every active order whose deadline is at or before `now` and
whose `settings.autoCloseOnDeadline` is true has status `expired` after one
sweep of `checkAndExpireOrders`, and its id is in the returned list; (2) no
operation ever moves an order whose status is closed or expired to any
other status (`createGroupOrder` applied with a fresh id, and `joinOrder`
on a store whose orders carry their own key as id, which every reachable
store does). -/
theorem claim_C3_expiry_and_terminal_status :
    (∀ st now oid o d, orderKeysNodup st →
      mapGet st.orders oid = some o → o.status = .active →
      o.deadline = some d → d ≤ now → o.settings.autoCloseOnDeadline = true →
      (∃ o2, mapGet (checkAndExpireOrders st now).1.orders oid = some o2 ∧
        o2.status = .expired) ∧ oid ∈ (checkAndExpireOrders st now).2) ∧
    (∀ env st userId menuId canView title description deadline settings
        foid fcode now, mapGet st.orders foid = none →
      preservesTerminalStatus st
        (createGroupOrder env st userId menuId canView title description
          deadline settings foid fcode now).1) ∧
    (∀ st oid uid request now,
      preservesTerminalStatus st (updateOrder st oid uid request now).1) ∧
    (∀ st oid uid now,
      preservesTerminalStatus st (closeOrder st oid uid now).1) ∧
    (∀ st oid now,
      preservesTerminalStatus st (expireOrder st oid now).1) ∧
    (∀ st oid uid,
      preservesTerminalStatus st (deleteOrder st oid uid).1) ∧
    (∀ env st request now fid pid mid, idCoherent st →
      preservesTerminalStatus st
        (joinOrder env st request now fid pid mid).1) ∧
    (∀ st oid pid now mid,
      preservesTerminalStatus st (leaveOrder st oid pid now mid).1) ∧
    (∀ env st oid pid request now iid,
      preservesTerminalStatus st
        (addOrderItem env st oid pid request now iid).1) ∧
    (∀ st oid pid iid request now,
      preservesTerminalStatus st
        (updateOrderItem st oid pid iid request now).1) ∧
    (∀ st oid pid iid now,
      preservesTerminalStatus st (removeOrderItem st oid pid iid now).1) ∧
    (∀ env st oid pid request now iid mid,
      preservesTerminalStatus st
        (addOrderItemWithHistory env st oid pid request now iid mid).1) ∧
    (∀ st oid pid iid request now mid,
      preservesTerminalStatus st
        (updateOrderItemWithHistory st oid pid iid request now mid).1) ∧
    (∀ st oid pid iid now mid,
      preservesTerminalStatus st
        (removeOrderItemWithHistory st oid pid iid now mid).1) ∧
    (∀ st now,
      preservesTerminalStatus st (checkAndExpireOrders st now).1) ∧
    (∀ st oid now,
      preservesTerminalStatus st (calculateOrderSummary st oid now).1) := by
  refine ⟨?_, ?_, ?_, ?_, ?_, ?_, ?_, ?_, ?_, ?_, ?_, ?_, ?_, ?_, ?_, ?_⟩
  · intro st now oid o d hnd hget hact hdl hdn hauto
    unfold checkAndExpireOrders
    refine sweepFold_expires now st.orders (st, []) oid o
      (mem_of_mapGet_eq_some hget) hnd hget ?_
    unfold expirePred deadlinePassed
    rw [hdl]
    simp [hact, hauto, hdn]
  · intro env st userId menuId canView title description deadline settings
      foid fcode now hfresh
    exact pts_createGroupOrder env st userId menuId canView title
      description deadline settings foid fcode now hfresh
  · intro st oid uid request now
    exact pts_updateOrder st oid uid request now
  · intro st oid uid now
    exact pts_closeOrder st oid uid now
  · intro st oid now
    exact pts_expireOrder st oid now
  · intro st oid uid
    exact pts_deleteOrder st oid uid
  · intro env st request now fid pid mid hid
    exact pts_joinOrder env st request now fid pid mid hid
  · intro st oid pid now mid
    exact pts_leaveOrder st oid pid now mid
  · intro env st oid pid request now iid
    exact pts_addOrderItem env st oid pid request now iid
  · intro st oid pid iid request now
    exact pts_updateOrderItem st oid pid iid request now
  · intro st oid pid iid now
    exact pts_removeOrderItem st oid pid iid now
  · intro env st oid pid request now iid mid
    exact pts_addOrderItemWithHistory env st oid pid request now iid mid
  · intro st oid pid iid request now mid
    exact pts_updateOrderItemWithHistory st oid pid iid request now mid
  · intro st oid pid iid now mid
    exact pts_removeOrderItemWithHistory st oid pid iid now mid
  · intro st now
    exact pts_checkAndExpireOrders st now
  · intro st oid now
    exact pts_calculateOrderSummary st oid now

/-- Witness for C3: one sweep of the store holding the overdue order
expires it and reports its id; a join against the closed store and a create
with a fresh id preserve the closed order's status. -/
theorem claim_C3_expiry_and_terminal_status_witness :
    ((∃ o2,
        mapGet (checkAndExpireOrders stDueFix 600000).1.orders "o1" =
          some o2 ∧ o2.status = .expired) ∧
      "o1" ∈ (checkAndExpireOrders stDueFix 600000).2) ∧
    preservesTerminalStatus stClosedFix
      (joinOrder envFix stClosedFix ⟨"123456", "bobby", none, none⟩ 5
        "id9" "p9" "mo9").1 ∧
    preservesTerminalStatus stClosedFix
      (createGroupOrder envFix stClosedFix "u1" "m1" true "t2" none none
        ⟨true, none, true⟩ "o9" "654321" 7).1 :=
  ⟨claim_C3_expiry_and_terminal_status.1 stDueFix 600000 "o1" orderDueFix 10
      (by decide) (by decide) (by decide) (by decide) (by decide) (by decide),
   claim_C3_expiry_and_terminal_status.2.2.2.2.2.2.1 envFix stClosedFix
      ⟨"123456", "bobby", none, none⟩ 5 "id9" "p9" "mo9" (by decide),
   claim_C3_expiry_and_terminal_status.2.1 envFix stClosedFix "u1" "m1" true
      "t2" none none ⟨true, none, true⟩ "o9" "654321" 7 (by decide)⟩

/-! ### Rejection on non-active orders (claim C4) -/

theorem removeFirst_of_any {α : Type} {l : List α} {pred : α → Bool}
    (h : l.any pred = true) : ∃ x rest, removeFirst l pred = some (x, rest) := by
  induction l with
  | nil => simp at h
  | cons y ys ih =>
      by_cases hy : pred y
      · exact ⟨y, ys, by simp [removeFirst, hy]⟩
      · simp only [List.any_cons, hy, Bool.false_or] at h
        obtain ⟨x, rest, hr⟩ := ih h
        exact ⟨x, y :: rest, by simp [removeFirst, hy, hr]⟩

/-- `canParticipantJoinOrder` refuses any non-active order, whatever the
identity. -/
theorem canParticipantJoinOrder_not_active {st : OrderServiceState}
    {pid : String} {order : GroupOrder} {now : Nat}
    (h : order.status ≠ .active) :
    canParticipantJoinOrder st pid order now = false := by
  unfold canParticipantJoinOrder
  split
  · rfl
  · rw [if_pos h]

/-- A valid `validateParticipantIdentity` result always carries an
identity. -/
theorem vpi_result (env : Env) (st : OrderServiceState)
    (request : JoinOrderRequest) (fid : String) (now : Nat) :
    (validateParticipantIdentity env st request fid now).2.canJoin = false ∨
      ∃ ident, (validateParticipantIdentity env st request fid now).2.identity
        = some ident := by
  unfold validateParticipantIdentity identityGuestStep
    createParticipantIdentity
  split
  · left
    rfl
  · split
    · split
      · left
        rfl
      · split
        · right
          exact ⟨_, rfl⟩
        · split
          · split
            · left
              rfl
            · split
              · right
                exact ⟨_, rfl⟩
              · right
                exact ⟨_, rfl⟩
          · right
            exact ⟨_, rfl⟩
    · split
      · split
        · left
          rfl
        · split
          · right
            exact ⟨_, rfl⟩
          · right
            exact ⟨_, rfl⟩
      · right
        exact ⟨_, rfl⟩

/-- `joinOrder` against a non-active order: the order store is untouched and
the join is refused (the refusal surfaces either from identity validation or
from `canParticipantJoinOrder`, which rejects any non-active order). -/
theorem joinOrder_not_active {env : Env} {st : OrderServiceState}
    {request : JoinOrderRequest} {now : Nat} {fid pid mid : String}
    {oid : String} {o : GroupOrder}
    (hcode : mapGet st.orderCodeIndex request.orderCode = some oid)
    (hget : mapGet st.orders oid = some o) (hna : o.status ≠ .active) :
    (joinOrder env st request now fid pid mid).1.orders = st.orders ∧
      (joinOrder env st request now fid pid mid).2.canJoin = false := by
  have hval : validateOrderCode st request.orderCode now =
      ⟨true, false, some ("Order is " ++ o.status.str), some o⟩ := by
    unfold validateOrderCode
    rw [hcode]
    dsimp only
    rw [hget]
    dsimp only
    rw [if_pos hna]
  by_cases hjoin :
      (!(validateParticipantIdentity env st request fid now).2.isValid ||
        !(validateParticipantIdentity env st request fid now).2.canJoin) = true
  · have hres : joinOrder env st request now fid pid mid =
        ((validateParticipantIdentity env st request fid now).1,
          ⟨false, false,
            some ((validateParticipantIdentity env st request fid
              now).2.error.getD "Cannot join order"), none⟩) := by
      simp only [joinOrder, hval]
      rw [if_neg (by simp), if_pos hjoin]
    rw [hres]
    exact ⟨orders_validateParticipantIdentity env st request fid now, rfl⟩
  · have hcj : (validateParticipantIdentity env st request fid
        now).2.canJoin = true := by
      cases hb : (validateParticipantIdentity env st request fid
          now).2.canJoin with
      | true => rfl
      | false => exact absurd (by simp [hb]) hjoin
    rcases vpi_result env st request fid now with hcontra | ⟨ident, hident⟩
    · rw [hcj] at hcontra
      simp at hcontra
    · have hok : (match
          (validateParticipantIdentity env st request fid now).2.identity with
          | some ident => canParticipantJoinOrder
              (validateParticipantIdentity env st request fid now).1
              ident.id o now
          | none => true) = false := by
        rw [hident]
        exact canParticipantJoinOrder_not_active hna
      have hres : joinOrder env st request now fid pid mid =
          ((validateParticipantIdentity env st request fid now).1,
            ⟨false, false, some "Cannot join this order", none⟩) := by
        simp only [joinOrder, hval]
        rw [if_neg (by simp), if_neg hjoin, hok]
        rw [if_pos (by simp)]
      rw [hres]
      exact ⟨orders_validateParticipantIdentity env st request fid now, rfl⟩

/-- C4: on an order whose status is closed or expired, addOrderItem,
updateOrderItem, removeOrderItem, joinOrder, updateOrder and closeOrder all
fail and leave the state (in particular the order's participants, items and
summary) unchanged, while leaveOrder still succeeds for an existing
participant and deleteOrder still succeeds for the creator. -/
theorem claim_C4_terminal_rejections (st : OrderServiceState) (oid : String)
    (o : GroupOrder) (hget : mapGet st.orders oid = some o)
    (hs : o.status = .closed ∨ o.status = .expired) :
    (∀ env pid request now iid,
      addOrderItem env st oid pid request now iid = (st, none)) ∧
    (∀ pid iid request now,
      updateOrderItem st oid pid iid request now = (st, none)) ∧
    (∀ pid iid now, removeOrderItem st oid pid iid now = (st, false)) ∧
    (∀ env request now fid pid mid,
      mapGet st.orderCodeIndex request.orderCode = some oid →
      (joinOrder env st request now fid pid mid).1.orders = st.orders ∧
        (joinOrder env st request now fid pid mid).2.canJoin = false) ∧
    (∀ uid request now, updateOrder st oid uid request now = (st, none)) ∧
    (∀ uid now, closeOrder st oid uid now = (st, false)) ∧
    (∀ pid now mid, o.participants.any (fun p => p.id == pid) = true →
      (leaveOrder st oid pid now mid).2 = true) ∧
    (∀ uid, o.createdBy = uid → (deleteOrder st oid uid).2 = true) := by
  have hna : o.status ≠ .active := by
    rcases hs with h | h <;> simp [h]
  refine ⟨?_, ?_, ?_, ?_, ?_, ?_, ?_, ?_⟩
  · intro env pid request now iid
    unfold addOrderItem
    rw [hget]
    dsimp only
    rw [if_pos hna]
  · intro pid iid request now
    unfold updateOrderItem
    rw [hget]
    dsimp only
    rw [if_pos hna]
  · intro pid iid now
    unfold removeOrderItem
    rw [hget]
    dsimp only
    rw [if_pos hna]
  · intro env request now fid pid mid hcode
    exact joinOrder_not_active hcode hget hna
  · intro uid request now
    unfold updateOrder
    rw [hget]
    dsimp only
    split
    · rfl
    · rfl
  · intro uid now
    unfold closeOrder
    rw [hget]
    dsimp only
    split
    · rfl
    · rfl
  · intro pid now mid hany
    obtain ⟨x, rest, hrem⟩ := removeFirst_of_any hany
    unfold leaveOrder
    rw [hget]
    dsimp only
    rw [hrem]
  · intro uid hcr
    unfold deleteOrder
    rw [hget]
    dsimp only
    rw [if_neg (by simp [hcr])]

/-- Witness for C4: the eight parts evaluated against the concrete store
holding the closed order. -/
theorem claim_C4_terminal_rejections_witness :
    addOrderItem envFix stClosedFix "o1" "p1" ⟨"X", 1, none, none⟩ 5 "i9" =
      (stClosedFix, none) ∧
    updateOrderItem stClosedFix "o1" "p1" "i1" ⟨some 3, none, none⟩ 5 =
      (stClosedFix, none) ∧
    removeOrderItem stClosedFix "o1" "p1" "i1" 5 = (stClosedFix, false) ∧
    ((joinOrder envFix stClosedFix ⟨"123456", "bobby", none, none⟩ 5 "id9"
        "p9" "mo9").1.orders = stClosedFix.orders ∧
      (joinOrder envFix stClosedFix ⟨"123456", "bobby", none, none⟩ 5 "id9"
        "p9" "mo9").2.canJoin = false) ∧
    updateOrder stClosedFix "o1" "u1" ⟨some "t", none, none, none⟩ 5 =
      (stClosedFix, none) ∧
    closeOrder stClosedFix "o1" "u1" 5 = (stClosedFix, false) ∧
    (leaveOrder stClosedFix "o1" "p1" 5 "mo9").2 = true ∧
    (deleteOrder stClosedFix "o1" "u1").2 = true :=
  have h := claim_C4_terminal_rejections stClosedFix "o1" orderClosedFix
    (by decide) (by decide)
  ⟨h.1 envFix "p1" ⟨"X", 1, none, none⟩ 5 "i9",
   h.2.1 "p1" "i1" ⟨some 3, none, none⟩ 5,
   h.2.2.1 "p1" "i1" 5,
   h.2.2.2.1 envFix ⟨"123456", "bobby", none, none⟩ 5 "id9" "p9" "mo9"
     (by decide),
   h.2.2.2.2.1 "u1" ⟨some "t", none, none, none⟩ 5,
   h.2.2.2.2.2.1 "u1" 5,
   h.2.2.2.2.2.2.1 "p1" 5 "mo9" (by decide),
   h.2.2.2.2.2.2.2 "u1" (by decide)⟩

/-! ### The permission window (claim C5) -/

theorem ediv60000_bounds (q : Int) :
    60000 * (q / 60000) ≤ q ∧ q < 60000 * (q / 60000) + 60000 := by
  have h := Int.ediv_add_emod q 60000
  have h2 := Int.emod_nonneg q (by norm_num : (60000 : Int) ≠ 0)
  have h3 := Int.emod_lt_of_pos q (by norm_num : (0 : Int) < 60000)
  omega

theorem minutesRemaining_nonpos {d now : Nat} (h : d < now + 60000) :
    minutesRemaining d now ≤ 0 := by
  unfold minutesRemaining
  rw [Int.fdiv_eq_ediv _ (by norm_num)]
  have hb := ediv60000_bounds ((d : Int) - (now : Int))
  omega

theorem minutesRemaining_limited {d now : Nat} (h1 : now + 60000 ≤ d)
    (h2 : d < now + 360000) :
    ¬(minutesRemaining d now ≤ 0) ∧ minutesRemaining d now ≤ 5 ∧
      1 ≤ minutesRemaining d now := by
  unfold minutesRemaining
  rw [Int.fdiv_eq_ediv _ (by norm_num)]
  have hb := ediv60000_bounds ((d : Int) - (now : Int))
  omega

theorem minutesRemaining_ample {d now : Nat} (h : now + 360000 ≤ d) :
    ¬(minutesRemaining d now ≤ 0) ∧ ¬(minutesRemaining d now ≤ 5) ∧
      6 ≤ minutesRemaining d now := by
  unfold minutesRemaining
  rw [Int.fdiv_eq_ediv _ (by norm_num)]
  have hb := ediv60000_bounds ((d : Int) - (now : Int))
  omega

/-- C5 (amended): `checkModificationPermission` returns not-allowed with a
reason when the order is missing, not active, modification-disabled, or the
participant is absent; when a deadline exists the "Order deadline has
passed" rejection happens exactly when FEWER THAN ONE FULL MINUTE remains,
`deadline < now + 60000` ms — this covers every deadline at or before `now`
but also deadlines strictly in the future by less than a minute, because
the remaining time is floored to whole minutes before the `≤ 0` test;
otherwise the call is allowed and carries
`timeRemaining = ⌊(deadline − now) / 1 min⌋`, flagged limited exactly when
that floor is between 1 and 5 (fewer than six minutes remain). -/
theorem claim_C5_permission_window (st : OrderServiceState)
    (oid pid : String) (now : Nat) :
    (mapGet st.orders oid = none →
      checkModificationPermission st oid pid now =
        ⟨false, some "Order not found", none⟩) ∧
    (∀ o, mapGet st.orders oid = some o → o.status ≠ .active →
      checkModificationPermission st oid pid now =
        ⟨false, some ("Order is " ++ o.status.str), none⟩) ∧
    (∀ o, mapGet st.orders oid = some o → o.status = .active →
      o.settings.allowModification = false →
      checkModificationPermission st oid pid now =
        ⟨false, some "Order modifications are disabled", none⟩) ∧
    (∀ o, mapGet st.orders oid = some o → o.status = .active →
      o.settings.allowModification = true →
      o.participants.find? (fun p => p.id == pid) = none →
      checkModificationPermission st oid pid now =
        ⟨false, some "Participant not found in order", none⟩) ∧
    (∀ o p d, mapGet st.orders oid = some o → o.status = .active →
      o.settings.allowModification = true →
      o.participants.find? (fun p => p.id == pid) = some p →
      o.deadline = some d →
      (d < now + 60000 →
        checkModificationPermission st oid pid now =
          ⟨false, some "Order deadline has passed", none⟩) ∧
      (now + 60000 ≤ d → d < now + 360000 →
        checkModificationPermission st oid pid now =
          ⟨true, some "Limited time remaining",
            some (minutesRemaining d now)⟩ ∧
        1 ≤ minutesRemaining d now ∧ minutesRemaining d now ≤ 5) ∧
      (now + 360000 ≤ d →
        checkModificationPermission st oid pid now =
          ⟨true, none, some (minutesRemaining d now)⟩ ∧
        6 ≤ minutesRemaining d now)) ∧
    (∀ o p, mapGet st.orders oid = some o → o.status = .active →
      o.settings.allowModification = true →
      o.participants.find? (fun p => p.id == pid) = some p →
      o.deadline = none →
      checkModificationPermission st oid pid now = ⟨true, none, none⟩) := by
  refine ⟨?_, ?_, ?_, ?_, ?_, ?_⟩
  · intro hnone
    unfold checkModificationPermission
    rw [hnone]
  · intro o hget hna
    unfold checkModificationPermission
    rw [hget]
    dsimp only
    rw [if_pos hna]
  · intro o hget hact hmod
    unfold checkModificationPermission
    rw [hget]
    dsimp only
    rw [if_neg (by simp [hact]), if_pos (by simp [hmod])]
  · intro o hget hact hmod hfind
    unfold checkModificationPermission
    rw [hget]
    dsimp only
    rw [if_neg (by simp [hact]), if_neg (by simp [hmod]), hfind]
  · intro o p d hget hact hmod hfind hdl
    have hred : ∀ (P : ModificationPermissionCheck → Prop),
        P (if minutesRemaining d now ≤ 0 then
            ⟨false, some "Order deadline has passed", none⟩
          else if minutesRemaining d now ≤ 5 then
            ⟨true, some "Limited time remaining",
              some (minutesRemaining d now)⟩
          else ⟨true, none, some (minutesRemaining d now)⟩) →
        P (checkModificationPermission st oid pid now) := by
      intro P hp
      unfold checkModificationPermission
      rw [hget]
      dsimp only
      rw [if_neg (by simp [hact]), if_neg (by simp [hmod]), hfind]
      dsimp only
      rw [hdl]
      dsimp only
      exact hp
    refine ⟨?_, ?_, ?_⟩
    · intro hd
      refine hred (fun c => c = _) ?_
      rw [if_pos (minutesRemaining_nonpos hd)]
    · intro hd1 hd2
      obtain ⟨hn0, hle5, hge1⟩ := minutesRemaining_limited hd1 hd2
      refine ⟨hred (fun c => c = _) ?_, hge1, hle5⟩
      rw [if_neg hn0, if_pos hle5]
    · intro hd1
      obtain ⟨hn0, hn5, hge6⟩ := minutesRemaining_ample hd1
      refine ⟨hred (fun c => c = _) ?_, hge6⟩
      rw [if_neg hn0, if_neg hn5]
  · intro o p hget hact hmod hfind hdl
    unfold checkModificationPermission
    rw [hget]
    dsimp only
    rw [if_neg (by simp [hact]), if_neg (by simp [hmod]), hfind]
    dsimp only
    rw [hdl]

/-- Counterexample to C5 as stated: with the fixture order whose deadline
`1030000` is strictly AFTER the probe instant `1000000`, the claim demands
an allowed result (the deadline is not at or before now), but the code
rejects with reason "Order deadline has passed" because fewer than 60
seconds remain and the floored minute count is 0. -/
theorem claim_C5_counterexample :
    (1000000 : Nat) < 1030000 ∧ orderSoonFix.deadline = some 1030000 ∧
      orderSoonFix.status = .active ∧
      checkModificationPermission stSoonFix "o1" "p1" 1000000 =
        ⟨false, some "Order deadline has passed", none⟩ := by
  refine ⟨by norm_num, by decide, by decide, ?_⟩
  decide

/-- Witness for C5 (amended): the three deadline regimes at concrete
instants against the fixture stores. -/
theorem claim_C5_permission_window_witness :
    checkModificationPermission stSoonFix "o1" "p1" 1000000 =
      ⟨false, some "Order deadline has passed", none⟩ ∧
    (checkModificationPermission stFix "o1" "p1" 599700000 =
      ⟨true, some "Limited time remaining", some 5⟩ ∧
      (1 : Int) ≤ 5 ∧ (5 : Int) ≤ 5) ∧
    (checkModificationPermission stFix "o1" "p1" 0 =
      ⟨true, none, some 10000⟩ ∧ (6 : Int) ≤ 10000) :=
  have h1 := ((claim_C5_permission_window stSoonFix "o1" "p1"
      1000000).2.2.2.2.1 orderSoonFix aliceFix 1030000 (by decide)
      (by decide) (by decide) (by decide) (by decide)).1 (by norm_num)
  have h2 := ((claim_C5_permission_window stFix "o1" "p1"
      599700000).2.2.2.2.1 orderFix aliceFix 600000000 (by decide)
      (by decide) (by decide) (by decide) (by decide)).2.1 (by norm_num)
      (by norm_num)
  have h3 := ((claim_C5_permission_window stFix "o1" "p1"
      0).2.2.2.2.1 orderFix aliceFix 600000000 (by decide) (by decide)
      (by decide) (by decide) (by decide)).2.2 (by norm_num)
  ⟨h1, by
      refine ⟨?_, by norm_num, by norm_num⟩
      rw [h2.1]
      decide,
    by
      refine ⟨?_, by norm_num⟩
      rw [h3.1]
      decide⟩

/-! ### Failure propagation (claim C7) -/

/-- Counterexample to C7 as stated: on the concrete closed order the
history-tracked operations do RAISE an exception — they evaluate to
`Except.error` (the embedding of `throw new Error(reason)`), carrying the
rejection reason "Order is closed" — instead of returning a typed failure
value. -/
theorem claim_C7_counterexample :
    addOrderItemWithHistory envFix stClosedFix "o1" "p1" ⟨"X", 1, none, none⟩
        5 "i9" "mo9" = (stClosedFix, Except.error "Order is closed") ∧
    updateOrderItemWithHistory stClosedFix "o1" "p1" "i1"
        ⟨some 3, none, none⟩ 5 "mo9" =
      (stClosedFix, Except.error "Order is closed") ∧
    removeOrderItemWithHistory stClosedFix "o1" "p1" "i1" 5 "mo9" =
      (stClosedFix, Except.error "Order is closed") :=
  ⟨rfl, rfl, rfl⟩

/-- C7 (amended): the plain core operations return typed failure values
(`none` / `false`) for the expected business-rule failures and the
state is untouched; the history-tracked variants consult the permission
check first and refuse a disallowed mutation WITHOUT any partial write,
but they do so by throwing an `Error` carrying the rejection reason
(`Except.error` in this model), not by returning a failure value. -/
theorem claim_C7_failure_propagation (st : OrderServiceState)
    (oid pid iid : String) (now : Nat) :
    (∀ env request iid2 mid,
      (checkModificationPermission st oid pid now).canModify = false →
      addOrderItemWithHistory env st oid pid request now iid2 mid =
        (st, .error ((checkModificationPermission st oid pid
          now).reason.getD "Cannot modify order"))) ∧
    (∀ request mid,
      (checkModificationPermission st oid pid now).canModify = false →
      updateOrderItemWithHistory st oid pid iid request now mid =
        (st, .error ((checkModificationPermission st oid pid
          now).reason.getD "Cannot modify order"))) ∧
    (∀ mid,
      (checkModificationPermission st oid pid now).canModify = false →
      removeOrderItemWithHistory st oid pid iid now mid =
        (st, .error ((checkModificationPermission st oid pid
          now).reason.getD "Cannot modify order"))) ∧
    (mapGet st.orders oid = none →
      (∀ env request iid2,
        addOrderItem env st oid pid request now iid2 = (st, none)) ∧
      (∀ request, updateOrderItem st oid pid iid request now = (st, none)) ∧
      removeOrderItem st oid pid iid now = (st, false) ∧
      (∀ mid, leaveOrder st oid pid now mid = (st, false)) ∧
      checkModificationPermission st oid pid now =
        ⟨false, some "Order not found", none⟩) := by
  refine ⟨?_, ?_, ?_, ?_⟩
  · intro env request iid2 mid hperm
    simp only [addOrderItemWithHistory]
    rw [if_pos (by simp [hperm])]
  · intro request mid hperm
    simp only [updateOrderItemWithHistory]
    rw [if_pos (by simp [hperm])]
  · intro mid hperm
    simp only [removeOrderItemWithHistory]
    rw [if_pos (by simp [hperm])]
  · intro hnone
    refine ⟨?_, ?_, ?_, ?_, ?_⟩
    · intro env request iid2
      unfold addOrderItem
      rw [hnone]
    · intro request
      unfold updateOrderItem
      rw [hnone]
    · unfold removeOrderItem
      rw [hnone]
    · intro mid
      unfold leaveOrder
      rw [hnone]
    · unfold checkModificationPermission
      rw [hnone]

/-- Witness for C7 (amended): concrete evaluation on the closed store (the
permission check refuses) and on a missing order id. -/
theorem claim_C7_failure_propagation_witness :
    addOrderItemWithHistory envFix stClosedFix "o1" "p1" ⟨"Y", 2, none, none⟩
        5 "i8" "mo8" = (stClosedFix, .error "Order is closed") ∧
    addOrderItem envFix stFix "nope" "p1" ⟨"X", 1, none, none⟩ 5 "i8" =
      (stFix, none) ∧
    removeOrderItem stFix "nope" "p1" "i1" 5 = (stFix, false) :=
  have h := claim_C7_failure_propagation stClosedFix "o1" "p1" "i1" 5
  have h2 := claim_C7_failure_propagation stFix "nope" "p1" "i1" 5
  ⟨h.1 envFix ⟨"Y", 2, none, none⟩ "i8" "mo8" (by decide),
   (h2.2.2.2 (by decide)).1 envFix ⟨"X", 1, none, none⟩ "i8",
   (h2.2.2.2 (by decide)).2.2.1⟩

/-! ### Quantity validation (claim C8) -/

/-- C8: the spec says a request whose quantity is not positive is rejected
as a validation failure before any state is touched.  The code performs no
quantity validation at all: against the concrete active store, an add-item
request with quantity 0 passes every check, creates an `OrderItem` with
`totalPrice` 0, appends it to the participant's items (1 item grows to 2)
and leaves the participant total at 100 — state IS touched and an item IS
created. -/
theorem claim_C8_no_quantity_validation :
    (addOrderItem envFix stFix "o1" "p1" ⟨"X", 0, none, none⟩ 5 "i9").2 =
      some ⟨"i9", "X", "Fried rice", 50, 0, [], 0, none⟩ ∧
    (mapGet (addOrderItem envFix stFix "o1" "p1" ⟨"X", 0, none, none⟩ 5
        "i9").1.orders "o1").map
      (fun o => o.participants.map (fun p => (p.items.length, p.totalAmount)))
      = some [(2, 100)] ∧
    (addOrderItem envFix stFix "o1" "p1" ⟨"X", -1, none, none⟩ 5 "i9").2 =
      some ⟨"i9", "X", "Fried rice", 50, -1, [], -50, none⟩ := by
  refine ⟨by decide, by decide, by decide⟩

/-! ### The price formula (claim C9) -/

theorem foldl_add_init {α : Type} (f : α → Int) (l : List α) (a : Int) :
    l.foldl (fun s x => s + f x) a = a + l.foldl (fun s x => s + f x) 0 := by
  induction l generalizing a with
  | nil => simp
  | cons x xs ih =>
      simp only [List.foldl_cons]
      rw [ih (a + f x), ih (0 + f x)]
      ring

theorem sumModifiers_cons (c : Customization) (cs : List Customization) :
    sumModifiers (c :: cs) = c.priceModifier + sumModifiers cs := by
  unfold sumModifiers
  simp only [List.foldl_cons]
  rw [foldl_add_init (fun c => c.priceModifier) cs (0 + c.priceModifier)]
  ring

theorem foldl_price_shift (q : Int) (l : List Customization) (a : Int) :
    l.foldl (fun t c => t + c.priceModifier * q) a =
      a + sumModifiers l * q := by
  induction l generalizing a with
  | nil => simp [sumModifiers]
  | cons c cs ih =>
      simp only [List.foldl_cons]
      rw [ih, sumModifiers_cons]
      ring

theorem itemTotalPrice_eq (b q : Int) (cs : Option (List Customization)) :
    itemTotalPrice b q cs = (b + sumModifiers (cs.getD [])) * q := by
  cases cs with
  | none =>
      show b * q = (b + sumModifiers []) * q
      rw [show sumModifiers [] = 0 from rfl]
      ring
  | some l =>
      show l.foldl (fun t c => t + c.priceModifier * q) (b * q) =
        (b + sumModifiers l) * q
      rw [foldl_price_shift]
      ring

/-- C9: every order item created by `addOrderItem` has
`totalPrice = (basePrice + Σ customization modifiers) × quantity` with
`basePrice` the price of the referenced menu item as found in the catalog
at add time, and every item recomputed by `updateOrderItem` satisfies the
same formula with `basePrice` kept from the stored item (the add-time
snapshot). -/
theorem claim_C9_price_formula (st : OrderServiceState) :
    (∀ env oid pid request now iid item,
      (addOrderItem env st oid pid request now iid).2 = some item →
      item.totalPrice =
        (item.basePrice + sumModifiers item.customizations) * item.quantity ∧
      item.quantity = request.quantity ∧
      item.customizations = request.customizations.getD [] ∧
      (∃ o menu mi, mapGet st.orders oid = some o ∧
        mapGet env.menus o.menuId = some menu ∧ mi ∈ menu.items ∧
        mi.id = request.menuItemId ∧ mi.isAvailable = true ∧
        item.basePrice = mi.price)) ∧
    (∀ oid pid iid request now item,
      (updateOrderItem st oid pid iid request now).2 = some item →
      item.totalPrice =
        (item.basePrice + sumModifiers item.customizations) * item.quantity ∧
      (∃ o p old, mapGet st.orders oid = some o ∧
        o.participants.find? (fun q => q.id == pid) = some p ∧
        p.items.find? (fun i => i.id == iid) = some old ∧
        item.basePrice = old.basePrice ∧
        item.quantity = request.quantity.getD old.quantity ∧
        item.customizations =
          request.customizations.getD old.customizations)) := by
  constructor
  · intro env oid pid request now iid item h
    unfold addOrderItem at h
    split at h
    · simp at h
    · rename_i order hget
      split at h
      · simp at h
      · split at h
        · simp at h
        · split at h
          · simp at h
          · rename_i participant hfindp
            split at h
            · simp at h
            · rename_i menu hmenu
              split at h
              · simp at h
              · rename_i menuItem hmi
                split at h
                · simp at h
                · rename_i havail
                  injection h with h2
                  subst h2
                  refine ⟨?_, rfl, rfl, order, menu, menuItem, hget, hmenu,
                    List.mem_of_find?_eq_some hmi,
                    by simpa using List.find?_some hmi,
                    by simpa using havail, rfl⟩
                  exact itemTotalPrice_eq menuItem.price request.quantity
                    request.customizations
  · intro oid pid iid request now item h
    unfold updateOrderItem at h
    split at h
    · simp at h
    · rename_i order hget
      split at h
      · simp at h
      · split at h
        · simp at h
        · split at h
          · simp at h
          · rename_i participant hfindp
            split at h
            · simp at h
            · rename_i existingItem hfindi
              injection h with h2
              subst h2
              refine ⟨?_, order, participant, existingItem, hget, hfindp,
                hfindi, rfl, rfl, rfl⟩
              dsimp only
              rw [foldl_price_shift]
              ring

/-- Witness for C9: the concrete add (2 × price-50 item with a +5 and −3
modifier each ⇒ totalPrice (50 + 2) × 2 = 104) and the concrete update. -/
theorem claim_C9_price_formula_witness :
    ((addOrderItem envFix stFix "o1" "p1"
        ⟨"X", 2, some [⟨"extra", 5⟩, ⟨"less", -3⟩], none⟩ 5 "i9").2 =
      some ⟨"i9", "X", "Fried rice", 50, 2, [⟨"extra", 5⟩, ⟨"less", -3⟩],
        104, none⟩) ∧
    (⟨"i9", "X", "Fried rice", 50, 2, [⟨"extra", 5⟩, ⟨"less", -3⟩], 104,
      none⟩ : OrderItem).totalPrice =
      ((50 : Int) + sumModifiers [⟨"extra", 5⟩, ⟨"less", -3⟩]) * 2 :=
  ⟨by decide,
   by
    have h := (claim_C9_price_formula stFix).1 envFix "o1" "p1"
      ⟨"X", 2, some [⟨"extra", 5⟩, ⟨"less", -3⟩], none⟩ 5 "i9"
      ⟨"i9", "X", "Fried rice", 50, 2, [⟨"extra", 5⟩, ⟨"less", -3⟩], 104,
        none⟩ (by decide)
    simpa using h.1⟩

/-! ### Modification history queries (claim C10) -/

theorem perm_insertTsDesc (x : OrderModification)
    (l : List OrderModification) : (insertTsDesc x l).Perm (x :: l) := by
  induction l with
  | nil => exact List.Perm.refl _
  | cons y ys ih =>
      unfold insertTsDesc
      split
      · exact List.Perm.refl _
      · exact (List.Perm.cons y ih).trans (List.Perm.swap x y ys)

theorem perm_sortTsDesc (l : List OrderModification) :
    (sortTsDesc l).Perm l := by
  induction l with
  | nil => exact List.Perm.refl _
  | cons x xs ih =>
      unfold sortTsDesc
      simp only [List.foldr_cons]
      exact (perm_insertTsDesc x _).trans (List.Perm.cons x ih)

theorem pairwise_insertTsDesc (x : OrderModification)
    (l : List OrderModification)
    (h : l.Pairwise (fun a b => b.timestamp ≤ a.timestamp)) :
    (insertTsDesc x l).Pairwise (fun a b => b.timestamp ≤ a.timestamp) := by
  induction l with
  | nil => simp [insertTsDesc]
  | cons y ys ih =>
      rw [List.pairwise_cons] at h
      unfold insertTsDesc
      split
      · rename_i hlt
        refine List.Pairwise.cons ?_ (List.Pairwise.cons h.1 h.2)
        intro z hz
        rcases List.mem_cons.mp hz with hz1 | hz1
        · rw [hz1]
          exact le_of_lt hlt
        · exact le_trans (h.1 z hz1) (le_of_lt hlt)
      · rename_i hnlt
        refine List.Pairwise.cons ?_ (ih h.2)
        intro z hz
        rcases List.mem_cons.mp ((perm_insertTsDesc x ys).mem_iff.mp hz)
          with hz0 | hz0
        · rw [hz0]
          exact not_lt.mp hnlt
        · exact h.1 z hz0

theorem pairwise_sortTsDesc (l : List OrderModification) :
    (sortTsDesc l).Pairwise (fun a b => b.timestamp ≤ a.timestamp) := by
  induction l with
  | nil => simp [sortTsDesc]
  | cons x xs ih =>
      unfold sortTsDesc
      simp only [List.foldr_cons]
      exact pairwise_insertTsDesc x _ ih

theorem foldFilter_mono (pid : String)
    (l : List (String × List OrderModification))
    (acc : List OrderModification) (m : OrderModification) (h : m ∈ acc) :
    m ∈ l.foldl
      (fun acc e => acc ++ e.2.filter (fun m => m.participantId == pid))
      acc := by
  induction l generalizing acc with
  | nil => exact h
  | cons e es ih => exact ih _ (List.mem_append_left _ h)

theorem mem_foldFilter_of (pid : String)
    {l : List (String × List OrderModification)} {k : String}
    {recs : List OrderModification} {m : OrderModification}
    (acc : List OrderModification) (hmem : (k, recs) ∈ l) (hm : m ∈ recs)
    (hp : m.participantId = pid) :
    m ∈ l.foldl
      (fun acc e => acc ++ e.2.filter (fun m => m.participantId == pid))
      acc := by
  induction l generalizing acc with
  | nil => simp at hmem
  | cons e es ih =>
      rcases List.mem_cons.mp hmem with h1 | h1
      · refine foldFilter_mono pid es _ m ?_
        refine List.mem_append_right _ ?_
        rw [← h1]
        exact List.mem_filter.mpr ⟨hm, by simp [hp]⟩
      · exact ih _ h1

theorem mem_foldFilter (pid : String)
    (l : List (String × List OrderModification))
    (acc : List OrderModification) (m : OrderModification)
    (h : m ∈ l.foldl
      (fun acc e => acc ++ e.2.filter (fun m => m.participantId == pid))
      acc) : m ∈ acc ∨ m.participantId = pid := by
  induction l generalizing acc with
  | nil => exact Or.inl h
  | cons e es ih =>
      rcases ih _ h with h1 | h1
      · rcases List.mem_append.mp h1 with h2 | h2
        · exact Or.inl h2
        · exact Or.inr (by simpa using (List.mem_filter.mp h2).2)
      · exact Or.inr h1

/-- C10: `getOrderModificationHistory` returns exactly the records recorded
for the order (a permutation of its log), sorted by timestamp newest first;
`getParticipantModificationHistory` returns exactly the participant's
records across all orders (a permutation of the filtered collection, every
element carrying that participant id, and complete: every logged record of
that participant appears), in the same newest-first order. -/
theorem claim_C10_history_sorted (st : OrderServiceState)
    (oid pid : String) :
    (getOrderModificationHistory st oid).Perm
      ((mapGet st.modifications oid).getD []) ∧
    (getOrderModificationHistory st oid).Pairwise
      (fun a b => b.timestamp ≤ a.timestamp) ∧
    (getParticipantModificationHistory st pid).Perm
      (st.modifications.foldl
        (fun acc e => acc ++ e.2.filter (fun m => m.participantId == pid))
        []) ∧
    (getParticipantModificationHistory st pid).Pairwise
      (fun a b => b.timestamp ≤ a.timestamp) ∧
    (∀ m ∈ getParticipantModificationHistory st pid,
      m.participantId = pid) ∧
    (∀ k recs, (k, recs) ∈ st.modifications → ∀ m ∈ recs,
      m.participantId = pid →
      m ∈ getParticipantModificationHistory st pid) := by
  refine ⟨perm_sortTsDesc _, pairwise_sortTsDesc _, perm_sortTsDesc _,
    pairwise_sortTsDesc _, ?_, ?_⟩
  · intro m hm
    have h2 := (perm_sortTsDesc _).mem_iff.mp hm
    rcases mem_foldFilter pid st.modifications [] m h2 with h3 | h3
    · simp at h3
    · exact h3
  · intro k recs hmem m hm hp
    exact (perm_sortTsDesc _).mem_iff.mpr
      (mem_foldFilter_of pid [] hmem hm hp)

/-- Witness for C10 against the concrete unsorted log fixture. -/
theorem claim_C10_history_sorted_witness :
    (getOrderModificationHistory stModsFix "o1").Perm
      [modFix "a" "p1" 5, modFix "b" "p2" 9, modFix "c" "p1" 7] ∧
    (getOrderModificationHistory stModsFix "o1").Pairwise
      (fun a b => b.timestamp ≤ a.timestamp) ∧
    modFix "d" "p1" 8 ∈ getParticipantModificationHistory stModsFix "p1" :=
  have h := claim_C10_history_sorted stModsFix "o1" "p1"
  ⟨h.1, h.2.1,
   h.2.2.2.2.2 "o2" [modFix "d" "p1" 8] (by decide) (modFix "d" "p1" 8)
     (by decide) (by decide)⟩

/-! ### Breakdown participants (claim C6) -/

theorem summaryPartsAt_nil (k : String) : summaryPartsAt [] k = [] := rfl

theorem summaryPartsAt_step (nick : String) (m : List OrderItemBreakdown)
    (i : OrderItem) (k : String) :
    summaryPartsAt (summaryStep nick m i) k =
      if i.menuItemId == k then summaryPartsAt m k ++ [nick]
      else summaryPartsAt m k := by
  induction m with
  | nil =>
      unfold summaryStep summaryPartsAt
      by_cases hk : i.menuItemId == k
      · simp [List.find?_cons, hk]
      · simp [List.find?_cons, hk]
  | cons b rest ih =>
      unfold summaryStep
      by_cases hb : b.menuItemId == i.menuItemId
      · rw [if_pos hb]
        unfold summaryPartsAt
        by_cases hk : b.menuItemId == k
        · have hik : (i.menuItemId == k) = true := by
            have h1 : b.menuItemId = i.menuItemId := by simpa using hb
            have h2 : b.menuItemId = k := by simpa using hk
            simp [← h1, h2]
          simp [List.find?_cons, hk, hik]
        · have hik : (i.menuItemId == k) = false := by
            have h1 : b.menuItemId = i.menuItemId := by simpa using hb
            rw [← h1]
            simpa using hk
          simp [List.find?_cons, hk, hik]
      · rw [if_neg hb]
        unfold summaryPartsAt
        by_cases hk : b.menuItemId == k
        · have hik : (i.menuItemId == k) = false := by
            by_contra hc
            have h2 : (i.menuItemId == k) = true := by
              cases hx : (i.menuItemId == k) with
              | true => rfl
              | false => exact absurd hx hc
            have h3 : b.menuItemId = k := by simpa using hk
            have h4 : i.menuItemId = k := by simpa using h2
            exact hb (by simp [h3, h4])
          simp [List.find?_cons, hk, hik]
        · have := ih
          unfold summaryPartsAt at this
          simp only [List.find?_cons, hk, cond_false] at *
          exact this

theorem summaryPartsAt_items (nick : String) (items : List OrderItem)
    (m : List OrderItemBreakdown) (k : String) :
    summaryPartsAt (items.foldl (summaryStep nick) m) k =
      summaryPartsAt m k ++
        (items.filter (fun i => i.menuItemId == k)).map
          (fun _ => nick) := by
  induction items generalizing m with
  | nil => simp
  | cons i itms ih =>
      simp only [List.foldl_cons, List.filter_cons]
      rw [ih, summaryPartsAt_step]
      by_cases hk : i.menuItemId == k
      · simp [hk]
      · simp [hk]

theorem summaryPartsAt_breakdown (ps : List OrderParticipant) (k : String) :
    summaryPartsAt (summaryBreakdown ps) k = nicknamesPerItem ps k := by
  suffices h : ∀ acc, summaryPartsAt
      (ps.foldl (fun m p => p.items.foldl (summaryStep p.nickname) m) acc) k
      = summaryPartsAt acc k ++ nicknamesPerItem ps k by
    simpa [summaryBreakdown, summaryPartsAt_nil] using h []
  intro acc
  induction ps generalizing acc with
  | nil => simp [nicknamesPerItem]
  | cons p ps ih =>
      simp only [List.foldl_cons]
      rw [ih, summaryPartsAt_items]
      simp [nicknamesPerItem, List.flatMap_cons]

theorem mem_insertIfAbsent (l : List String) (x y : String) :
    y ∈ insertIfAbsent l x ↔ y ∈ l ∨ y = x := by
  unfold insertIfAbsent
  split
  · rename_i hc
    have hx : x ∈ l := by simpa using hc
    constructor
    · exact fun hy => Or.inl hy
    · intro hy
      rcases hy with hy | hy
      · exact hy
      · exact hy ▸ hx
  · simp

theorem nodup_insertIfAbsent (l : List String) (x : String) (h : l.Nodup) :
    (insertIfAbsent l x).Nodup := by
  unfold insertIfAbsent
  split
  · exact h
  · rename_i hc
    have hx : x ∉ l := by simpa using hc
    simp [List.nodup_append, h, hx]

theorem dedupFirst_fold_nodup (l acc : List String) (h : acc.Nodup) :
    (l.foldl insertIfAbsent acc).Nodup := by
  induction l generalizing acc with
  | nil => exact h
  | cons x xs ih => exact ih _ (nodup_insertIfAbsent acc x h)

theorem dedupFirst_nodup (l : List String) : (dedupFirst l).Nodup :=
  dedupFirst_fold_nodup l [] List.nodup_nil

theorem mem_dedupFirst_fold (l acc : List String) (y : String) :
    y ∈ l.foldl insertIfAbsent acc ↔ y ∈ acc ∨ y ∈ l := by
  induction l generalizing acc with
  | nil => simp
  | cons x xs ih =>
      simp only [List.foldl_cons, ih, mem_insertIfAbsent, List.mem_cons]
      tauto

theorem mem_dedupFirst (l : List String) (y : String) :
    y ∈ dedupFirst l ↔ y ∈ l := by
  unfold dedupFirst
  rw [mem_dedupFirst_fold]
  simp

theorem totalsPartsAt_nil (k : String) : totalsPartsAt [] k = [] := rfl

theorem totalsPartsAt_step (p : OrderParticipant)
    (m : List OrderTotalsBreakdown) (i : OrderItem) (k : String) :
    totalsPartsAt (totalsStep p m i) k =
      if i.menuItemId == k then insertIfAbsent (totalsPartsAt m k) p.id
      else totalsPartsAt m k := by
  induction m with
  | nil =>
      unfold totalsStep totalsPartsAt
      by_cases hk : i.menuItemId == k
      · simp [List.find?_cons, hk, insertIfAbsent]
      · simp [List.find?_cons, hk]
  | cons b rest ih =>
      unfold totalsStep
      by_cases hb : b.itemId == i.menuItemId
      · rw [if_pos hb]
        unfold totalsPartsAt
        by_cases hk : b.itemId == k
        · have hik : (i.menuItemId == k) = true := by
            have h1 : b.itemId = i.menuItemId := by simpa using hb
            have h2 : b.itemId = k := by simpa using hk
            simp [← h1, h2]
          simp [List.find?_cons, hk, hik]
        · have hik : (i.menuItemId == k) = false := by
            have h1 : b.itemId = i.menuItemId := by simpa using hb
            rw [← h1]
            simpa using hk
          simp [List.find?_cons, hk, hik]
      · rw [if_neg hb]
        unfold totalsPartsAt
        by_cases hk : b.itemId == k
        · have hik : (i.menuItemId == k) = false := by
            by_contra hc
            have h2 : (i.menuItemId == k) = true := by
              cases hx : (i.menuItemId == k) with
              | true => rfl
              | false => exact absurd hx hc
            have h3 : b.itemId = k := by simpa using hk
            have h4 : i.menuItemId = k := by simpa using h2
            exact hb (by simp [h3, h4])
          simp [List.find?_cons, hk, hik]
        · have := ih
          unfold totalsPartsAt at this
          simp only [List.find?_cons, hk, cond_false] at *
          exact this

theorem totalsPartsAt_items (p : OrderParticipant) (items : List OrderItem)
    (m : List OrderTotalsBreakdown) (k : String) :
    totalsPartsAt (items.foldl (totalsStep p) m) k =
      ((items.filter (fun i => i.menuItemId == k)).map
        (fun _ => p.id)).foldl insertIfAbsent (totalsPartsAt m k) := by
  induction items generalizing m with
  | nil => simp
  | cons i itms ih =>
      simp only [List.foldl_cons, List.filter_cons]
      rw [ih, totalsPartsAt_step]
      by_cases hk : i.menuItemId == k
      · simp [hk]
      · simp [hk]

theorem totalsPartsAt_breakdown (ps : List OrderParticipant) (k : String) :
    totalsPartsAt (totalsBreakdown ps) k = dedupFirst (idsPerItem ps k) := by
  suffices h : ∀ acc, totalsPartsAt
      (ps.foldl (fun m p => p.items.foldl (totalsStep p) m) acc) k
      = (idsPerItem ps k).foldl insertIfAbsent (totalsPartsAt acc k) by
    simpa [totalsBreakdown, dedupFirst, totalsPartsAt_nil] using h []
  intro acc
  induction ps generalizing acc with
  | nil => simp [idsPerItem]
  | cons p ps ih =>
      simp only [List.foldl_cons]
      rw [ih, totalsPartsAt_items]
      simp [idsPerItem, List.flatMap_cons, List.foldl_append]

theorem totalsStep_count (p : OrderParticipant)
    (m : List OrderTotalsBreakdown) (i : OrderItem)
    (h : ∀ b ∈ m, b.participantCount = b.participants.length) :
    ∀ b ∈ totalsStep p m i, b.participantCount = b.participants.length := by
  induction m with
  | nil =>
      intro b hb
      unfold totalsStep at hb
      simp at hb
      rw [hb]
      rfl
  | cons b0 rest ih =>
      intro b hb
      unfold totalsStep at hb
      by_cases hb0 : b0.itemId == i.menuItemId
      · rw [if_pos hb0] at hb
        rcases List.mem_cons.mp hb with h1 | h1
        · rw [h1]
        · exact h b (List.mem_cons_of_mem _ h1)
      · rw [if_neg hb0] at hb
        rcases List.mem_cons.mp hb with h1 | h1
        · rw [h1]
          exact h b0 (List.mem_cons_self _ _)
        · exact ih (fun b2 hb2 => h b2 (List.mem_cons_of_mem _ hb2)) b h1

theorem totalsItems_count (p : OrderParticipant) (items : List OrderItem)
    (m : List OrderTotalsBreakdown)
    (h : ∀ b ∈ m, b.participantCount = b.participants.length) :
    ∀ b ∈ items.foldl (totalsStep p) m,
      b.participantCount = b.participants.length := by
  induction items generalizing m with
  | nil => exact h
  | cons i itms ih => exact ih _ (totalsStep_count p m i h)

theorem totalsBreakdown_count (ps : List OrderParticipant) :
    ∀ b ∈ totalsBreakdown ps,
      b.participantCount = b.participants.length := by
  suffices h : ∀ acc, (∀ b ∈ acc,
      b.participantCount = b.participants.length) →
      ∀ b ∈ ps.foldl (fun m p => p.items.foldl (totalsStep p) m) acc,
        b.participantCount = b.participants.length by
    exact h [] (by simp)
  intro acc hacc
  induction ps generalizing acc with
  | nil => exact hacc
  | cons p ps ih => exact ih _ (totalsItems_count p p.items acc hacc)

/-- C6 (amended): the summary's `itemBreakdown` entry for a menu item lists
one nickname per order item referencing it — a participant holding several
such items appears several times, so `order.summary` does NOT record the
distinct participant set.  The distinct set lives in the
`calculateOrderTotals` read model: its entry carries the duplicate-free
list of the ids of exactly those participants that ordered the item, and
its `participantCount` is the size of that set, under any sequence of item
additions, updates and removals (the breakdowns are pure functions of the
resulting participant list). -/
theorem claim_C6_breakdown_participants (ps : List OrderParticipant)
    (order : GroupOrder) (k : String) (now : Nat) :
    summaryPartsAt (computeSummary ps now).itemBreakdown k =
      nicknamesPerItem ps k ∧
    totalsPartsAt (calculateOrderTotals order).itemBreakdown k =
      dedupFirst (idsPerItem order.participants k) ∧
    (totalsPartsAt (calculateOrderTotals order).itemBreakdown k).Nodup ∧
    (∀ x, x ∈ totalsPartsAt (calculateOrderTotals order).itemBreakdown k ↔
      ∃ p, p ∈ order.participants ∧ p.id = x ∧
        ∃ i, i ∈ p.items ∧ i.menuItemId = k) ∧
    (∀ b ∈ (calculateOrderTotals order).itemBreakdown,
      b.participantCount = b.participants.length) := by
  refine ⟨summaryPartsAt_breakdown ps k, totalsPartsAt_breakdown _ k, ?_,
    ?_, totalsBreakdown_count _⟩
  · rw [show (calculateOrderTotals order).itemBreakdown =
        totalsBreakdown order.participants from rfl,
      totalsPartsAt_breakdown]
    exact dedupFirst_nodup _
  · intro x
    rw [show (calculateOrderTotals order).itemBreakdown =
        totalsBreakdown order.participants from rfl,
      totalsPartsAt_breakdown, mem_dedupFirst]
    simp only [idsPerItem, List.mem_flatMap, List.mem_map, List.mem_filter,
      beq_iff_eq]
    tauto

/-- Counterexample to C6 as stated: `aliceTwoFix` holds TWO order items
referencing menu item "X"; in the order summary's breakdown her nickname
is pushed once per item, so the entry's participant list is
["alice", "alice"] — she is counted twice, not once, and the list is not
the distinct set the claim describes. -/
theorem claim_C6_counterexample :
    aliceTwoFix.items.map (fun i => i.menuItemId) = ["X", "X"] ∧
    (computeSummary [aliceTwoFix] 7).itemBreakdown.map
      (fun b => b.participants) = [["alice", "alice"]] ∧
    ¬(summaryPartsAt (computeSummary [aliceTwoFix] 7).itemBreakdown
        "X").Nodup :=
  ⟨by decide, by decide, by decide⟩

/-- Witness for C6 (amended) at the two-items-same-menu-item fixture. -/
theorem claim_C6_breakdown_participants_witness :
    summaryPartsAt (computeSummary [aliceTwoFix] 7).itemBreakdown "X" =
      nicknamesPerItem [aliceTwoFix] "X" ∧
    totalsPartsAt (calculateOrderTotals orderTwoFix).itemBreakdown "X" =
      dedupFirst (idsPerItem orderTwoFix.participants "X") ∧
    (totalsPartsAt
      (calculateOrderTotals orderTwoFix).itemBreakdown "X").Nodup ∧
    (⟨"X", "Fried rice", 3, 150, 1, ["p1"]⟩ :
      OrderTotalsBreakdown).participantCount = 1 :=
  have h := claim_C6_breakdown_participants [aliceTwoFix] orderTwoFix "X" 7
  ⟨h.1, h.2.1, h.2.2.1, h.2.2.2.2 ⟨"X", "Fried rice", 3, 150, 1, ["p1"]⟩
    (by decide)⟩

/-! ### The join protocol (claim C2) -/

theorem modifications_calculateOrderSummary (st : OrderServiceState)
    (oid : String) (now : Nat) :
    (calculateOrderSummary st oid now).1.modifications = st.modifications := by
  unfold calculateOrderSummary
  split <;> rfl

theorem modifications_updateParticipantActivity (st : OrderServiceState)
    (pid : String) (now : Nat) :
    (updateParticipantActivity st pid now).modifications =
      st.modifications := by
  unfold updateParticipantActivity
  split <;> rfl

/-- `canParticipantJoinOrder` refuses when the deadline has passed,
whatever the identity. -/
theorem canParticipantJoinOrder_deadline {st : OrderServiceState}
    {pid : String} {order : GroupOrder} {now : Nat}
    (h : deadlinePassed order.deadline now = true) :
    canParticipantJoinOrder st pid order now = false := by
  unfold canParticipantJoinOrder
  split
  · rfl
  · split
    · rfl
    · rfl

/-- `joinOrder` when the code resolves to an order that
`canParticipantJoinOrder` always refuses (non-active or past-deadline):
the order store is untouched and the join is refused. -/
theorem joinOrder_blocked {env : Env} {st : OrderServiceState}
    {request : JoinOrderRequest} {now : Nat} {fid pid mid : String}
    {o : GroupOrder} {e : Option String}
    (hval : validateOrderCode st request.orderCode now =
      ⟨true, false, e, some o⟩)
    (hc : ∀ st2 pid2, canParticipantJoinOrder st2 pid2 o now = false) :
    (joinOrder env st request now fid pid mid).1.orders = st.orders ∧
      (joinOrder env st request now fid pid mid).2.canJoin = false := by
  by_cases hjoin :
      (!(validateParticipantIdentity env st request fid now).2.isValid ||
        !(validateParticipantIdentity env st request fid now).2.canJoin) = true
  · have hres : joinOrder env st request now fid pid mid =
        ((validateParticipantIdentity env st request fid now).1,
          ⟨false, false,
            some ((validateParticipantIdentity env st request fid
              now).2.error.getD "Cannot join order"), none⟩) := by
      simp only [joinOrder, hval]
      rw [if_neg (by simp), if_pos hjoin]
    rw [hres]
    exact ⟨orders_validateParticipantIdentity env st request fid now, rfl⟩
  · rcases vpi_result env st request fid now with hcontra | ⟨ident, hident⟩
    · exact absurd (by simp [hcontra]) hjoin
    · have hok : (match
          (validateParticipantIdentity env st request fid now).2.identity with
          | some ident => canParticipantJoinOrder
              (validateParticipantIdentity env st request fid now).1
              ident.id o now
          | none => true) = false := by
        rw [hident]
        exact hc _ _
      have hres : joinOrder env st request now fid pid mid =
          ((validateParticipantIdentity env st request fid now).1,
            ⟨false, false, some "Cannot join this order", none⟩) := by
        simp only [joinOrder, hval]
        rw [if_neg (by simp), if_neg hjoin, hok]
        rw [if_pos (by simp)]
      rw [hres]
      exact ⟨orders_validateParticipantIdentity env st request fid now, rfl⟩

/-- `joinOrder` when the code resolves to a joinable order but the backup
duplicate check or the (truthiness) capacity check fires: the order store
is untouched and the join is refused. -/
theorem joinOrder_reject_late {env : Env} {st : OrderServiceState}
    {request : JoinOrderRequest} {now : Nat} {fid pid mid : String}
    {o : GroupOrder}
    (hval : validateOrderCode st request.orderCode now =
      ⟨true, true, none, some o⟩)
    (hblock : o.participants.any (requestMatchesParticipant request) = true ∨
      capacityReached o.settings o.participants.length = true) :
    (joinOrder env st request now fid pid mid).1.orders = st.orders ∧
      (joinOrder env st request now fid pid mid).2.canJoin = false := by
  by_cases hjoin :
      (!(validateParticipantIdentity env st request fid now).2.isValid ||
        !(validateParticipantIdentity env st request fid now).2.canJoin) = true
  · have hres : joinOrder env st request now fid pid mid =
        ((validateParticipantIdentity env st request fid now).1,
          ⟨false, false,
            some ((validateParticipantIdentity env st request fid
              now).2.error.getD "Cannot join order"), none⟩) := by
      simp only [joinOrder, hval]
      rw [if_neg (by simp), if_pos hjoin]
    rw [hres]
    exact ⟨orders_validateParticipantIdentity env st request fid now, rfl⟩
  · rcases vpi_result env st request fid now with hcontra | ⟨ident, hident⟩
    · exact absurd (by simp [hcontra]) hjoin
    · by_cases hok : canParticipantJoinOrder
          (validateParticipantIdentity env st request fid now).1 ident.id o
          now = true
      · by_cases hdup : o.participants.any
            (requestMatchesParticipant request) = true
        · have hres : joinOrder env st request now fid pid mid =
              ((validateParticipantIdentity env st request fid now).1,
                ⟨false, false,
                  some "Already joined this order or nickname already taken",
                  none⟩) := by
            simp only [joinOrder, hval]
            rw [if_neg (by simp), if_neg hjoin, hident]
            dsimp only
            rw [hok]
            rw [if_neg (by simp), if_pos hdup]
          rw [hres]
          exact ⟨orders_validateParticipantIdentity env st request fid now,
            rfl⟩
        · have hcap : capacityReached o.settings o.participants.length
              = true := by
            rcases hblock with h1 | h1
            · exact absurd h1 hdup
            · exact h1
          have hres : joinOrder env st request now fid pid mid =
              ((validateParticipantIdentity env st request fid now).1,
                ⟨false, false,
                  some "Order has reached maximum participants", none⟩) := by
            simp only [joinOrder, hval]
            rw [if_neg (by simp), if_neg hjoin, hident]
            dsimp only
            rw [hok]
            rw [if_neg (by simp), if_neg hdup, if_pos hcap]
          rw [hres]
          exact ⟨orders_validateParticipantIdentity env st request fid now,
            rfl⟩
      · have hres : joinOrder env st request now fid pid mid =
            ((validateParticipantIdentity env st request fid now).1,
              ⟨false, false, some "Cannot join this order", none⟩) := by
          simp only [joinOrder, hval]
          rw [if_neg (by simp), if_neg hjoin, hident]
          dsimp only
          rw [Bool.not_eq_true] at hok
          rw [hok]
          rw [if_pos (by simp)]
        rw [hres]
        exact ⟨orders_validateParticipantIdentity env st request fid now,
          rfl⟩

/-- Counterexample to C2 as stated: `orderCapZero` has
`maxParticipants = some 0` — the cap is set and, with 0 participants,
already reached — yet the join SUCCEEDS (JavaScript truthiness treats the
`0` as unset and skips the capacity check in both `canParticipantJoinOrder`
and the backup check), appending a participant. -/
theorem claim_C2_counterexample :
    orderCapZero.settings.maxParticipants = some 0 ∧
    orderCapZero.participants.length = 0 ∧
    (joinOrder envFix stCapZero ⟨"123456", "bobby", none, none⟩ 5 "id9"
      "p9" "mo9").2.canJoin = true ∧
    (mapGet (joinOrder envFix stCapZero ⟨"123456", "bobby", none, none⟩ 5
        "id9" "p9" "mo9").1.orders "o1").map
      (fun o => o.participants.length) = some 1 :=
  ⟨rfl, rfl, by decide, by decide⟩

/-- The success path of `joinOrder` for an anonymous request (no user id
and no guest session, as the HTTP layer sends for a visitor): a fresh
identity is created, the new participant (empty items, total 0) is
appended, the summary is recomputed from the new participant list, and a
`participant_joined` record is appended to the order's log. -/
theorem joinOrder_success {env : Env} {st : OrderServiceState}
    {request : JoinOrderRequest} {now : Nat} {fid pid mid : String}
    {oid : String} {o : GroupOrder}
    (hcode : mapGet st.orderCodeIndex request.orderCode = some oid)
    (hget : mapGet st.orders oid = some o)
    (hact : o.status = .active)
    (hdl : ∀ d, o.deadline = some d → now < d)
    (hcap : ∀ m, o.settings.maxParticipants = some m →
      m = 0 ∨ o.participants.length < m)
    (hdup : ∀ p ∈ o.participants, requestMatchesParticipant request p = false)
    (hfresh : ∀ p ∈ o.participants, p.id ≠ fid)
    (hnick : isValidNickname request.nickname = true)
    (huid : request.userId = none)
    (hgid : request.guestSessionId = none) :
    (joinOrder env st request now fid pid mid).2 =
      ⟨true, true, none, some { o with
        participants := o.participants ++
          [⟨pid, request.userId, request.guestSessionId, request.nickname,
            [], 0, now, now⟩]
        updatedAt := now }⟩ ∧
    mapGet (joinOrder env st request now fid pid mid).1.orders o.id =
      some { o with
        participants := o.participants ++
          [⟨pid, request.userId, request.guestSessionId, request.nickname,
            [], 0, now, now⟩]
        summary := computeSummary (o.participants ++
          [⟨pid, request.userId, request.guestSessionId, request.nickname,
            [], 0, now, now⟩]) now
        updatedAt := now } ∧
    mapGet (joinOrder env st request now fid pid mid).1.modifications
        o.id =
      some ((mapGet st.modifications o.id).getD [] ++
        [⟨mid, o.id, pid, request.nickname, .participant_joined, now,
          request.nickname ++ " joined the order"⟩]) := by
  have hdlf : deadlinePassed o.deadline now = false := by
    unfold deadlinePassed
    cases hd : o.deadline with
    | none => rfl
    | some d =>
        simp only [decide_eq_false_iff_not]
        exact Nat.not_le.mpr (hdl d hd)
  have hcapf : capacityReached o.settings o.participants.length = false := by
    unfold capacityReached
    cases hm : o.settings.maxParticipants with
    | none => rfl
    | some m =>
        rcases hcap m hm with h0 | hlt
        · simp [h0]
        · simp [Nat.not_le.mpr hlt]
  have hval : validateOrderCode st request.orderCode now =
      ⟨true, true, none, some o⟩ := by
    unfold validateOrderCode
    rw [hcode]
    dsimp only
    rw [hget]
    dsimp only
    rw [if_neg (by simp [hact]), if_neg (by simp [hdlf])]
  have hvpi : validateParticipantIdentity env st request fid now =
      ({ st with identities := (mapSet st.identities fid
          ⟨fid, request.userId, request.guestSessionId, request.nickname,
            now⟩) },
        ⟨true, true, some ⟨fid, request.userId, request.guestSessionId,
          request.nickname, now⟩, none⟩) := by
    unfold validateParticipantIdentity
    rw [if_neg (by simp [hnick]), huid]
    dsimp only
    unfold identityGuestStep
    rw [hgid]
    dsimp only
    unfold createParticipantIdentity
    simp [huid, hgid]
  have hpjo : canParticipantJoinOrder
      { st with identities := (mapSet st.identities fid
          ⟨fid, request.userId, request.guestSessionId, request.nickname,
            now⟩) }
      fid o now = true := by
    unfold canParticipantJoinOrder
    dsimp only
    rw [mapGet_mapSet_self]
    dsimp only
    rw [if_neg (by simp [hact]), if_neg (by simp [hdlf]),
      if_neg (by simp [hcapf])]
    have hanyf : o.participants.any
        (identityMatchesParticipant
          ⟨fid, request.userId, request.guestSessionId, request.nickname,
            now⟩ fid) = false := by
      rw [List.any_eq_false]
      intro p hp
      unfold identityMatchesParticipant
      have h1 : (p.id == fid) = false := by simpa using hfresh p hp
      simp [h1, huid, hgid]
    rw [hanyf]
    rfl
  have hdupany : o.participants.any (requestMatchesParticipant request)
      = false := by
    rw [List.any_eq_false]
    intro p hp
    simp [hdup p hp]
  have hres : joinOrder env st request now fid pid mid =
      (updateParticipantActivity
        (recordModification
          ((calculateOrderSummary
            { ({ st with identities := (mapSet st.identities fid
                  ⟨fid, request.userId, request.guestSessionId,
                    request.nickname, now⟩) } : OrderServiceState) with
                orders := (mapSet
                  ({ st with identities := (mapSet st.identities fid
                      ⟨fid, request.userId, request.guestSessionId,
                        request.nickname, now⟩) } :
                    OrderServiceState).orders o.id
                  { o with
                    participants := o.participants ++
                      [⟨pid, request.userId, request.guestSessionId,
                        request.nickname, [], 0, now, now⟩]
                    updatedAt := now }) }
            o.id now).1)
          o.id pid request.nickname .participant_joined
          (request.nickname ++ " joined the order") mid now)
        pid now,
      ⟨true, true, none, some { o with
        participants := o.participants ++
          [⟨pid, request.userId, request.guestSessionId, request.nickname,
            [], 0, now, now⟩]
        updatedAt := now }⟩) := by
    simp only [joinOrder, hval, hvpi]
    rw [if_neg (by simp)]
    rw [if_neg (by simp)]
    rw [hpjo]
    rw [if_neg (by simp), hdupany]
    rw [if_neg (by simp), if_neg (by simp [hcapf])]
  rw [hres]
  refine ⟨rfl, ?_, ?_⟩
  · rw [orders_updateParticipantActivity,
      show ∀ s : OrderServiceState, (recordModification s o.id pid
        request.nickname .participant_joined
        (request.nickname ++ " joined the order") mid now).orders = s.orders
        from fun s => rfl]
    rw [orders_set_calc]
    rw [mapGet_mapSet_self]
  · rw [modifications_updateParticipantActivity]
    unfold recordModification
    dsimp only
    rw [modifications_calculateOrderSummary]
    dsimp only
    rw [mapGet_mapSet_self]

/-- When the order behind the code is active and its deadline (if any) is
still ahead, `validateOrderCode` approves the join. -/
theorem validateOrderCode_ok {st : OrderServiceState} {code : String}
    {now : Nat} {oid : String} {o : GroupOrder}
    (hcode : mapGet st.orderCodeIndex code = some oid)
    (hget : mapGet st.orders oid = some o)
    (hact : o.status = .active)
    (hdl : ∀ d, o.deadline = some d → now < d) :
    validateOrderCode st code now = ⟨true, true, none, some o⟩ := by
  have hdlf : deadlinePassed o.deadline now = false := by
    unfold deadlinePassed
    cases hd : o.deadline with
    | none => rfl
    | some d =>
        simp only [decide_eq_false_iff_not]
        exact Nat.not_le.mpr (hdl d hd)
  unfold validateOrderCode
  rw [hcode]
  dsimp only
  rw [hget]
  dsimp only
  rw [if_neg (by simp [hact]), if_neg (by simp [hdlf])]

/-- C2 (amended): `joinOrder` resolves the order by its code and
(a) rejects with state unchanged when the code is unknown,
(b) rejects with state unchanged when the code maps to a missing order,
(c) leaves the order store unchanged and refuses when the order is not
active, (d) likewise when a deadline exists and is at or before `now`
(evaluated at call time), (e) likewise when a participant already matches
the request's identity or nickname, and (f) likewise when
`maxParticipants` is set to a NONZERO value already reached — a cap of 0
is skipped by JavaScript truthiness (see the counterexample); (g)
otherwise, for an anonymous request with a fresh valid nickname, it
appends a new participant with empty item list and totalAmount 0,
recomputes the summary from the new participant list, and appends a
`participant_joined` modification record. -/
theorem claim_C2_join_protocol (env : Env) (st : OrderServiceState)
    (request : JoinOrderRequest) (now : Nat) (fid pid mid : String) :
    (mapGet st.orderCodeIndex request.orderCode = none →
      joinOrder env st request now fid pid mid =
        (st, ⟨false, false, some "Invalid order code", none⟩)) ∧
    (∀ oid, mapGet st.orderCodeIndex request.orderCode = some oid →
      mapGet st.orders oid = none →
      joinOrder env st request now fid pid mid =
        (st, ⟨false, false, some "Order not found", none⟩)) ∧
    (∀ oid o, mapGet st.orderCodeIndex request.orderCode = some oid →
      mapGet st.orders oid = some o → o.status ≠ .active →
      (joinOrder env st request now fid pid mid).1.orders = st.orders ∧
        (joinOrder env st request now fid pid mid).2.canJoin = false) ∧
    (∀ oid o d, mapGet st.orderCodeIndex request.orderCode = some oid →
      mapGet st.orders oid = some o → o.status = .active →
      o.deadline = some d → d ≤ now →
      (joinOrder env st request now fid pid mid).1.orders = st.orders ∧
        (joinOrder env st request now fid pid mid).2.canJoin = false) ∧
    (∀ oid o, mapGet st.orderCodeIndex request.orderCode = some oid →
      mapGet st.orders oid = some o → o.status = .active →
      (∀ d, o.deadline = some d → now < d) →
      o.participants.any (requestMatchesParticipant request) = true →
      (joinOrder env st request now fid pid mid).1.orders = st.orders ∧
        (joinOrder env st request now fid pid mid).2.canJoin = false) ∧
    (∀ oid o m, mapGet st.orderCodeIndex request.orderCode = some oid →
      mapGet st.orders oid = some o → o.status = .active →
      (∀ d, o.deadline = some d → now < d) →
      o.settings.maxParticipants = some m → m ≠ 0 →
      m ≤ o.participants.length →
      (joinOrder env st request now fid pid mid).1.orders = st.orders ∧
        (joinOrder env st request now fid pid mid).2.canJoin = false) ∧
    (∀ oid o, mapGet st.orderCodeIndex request.orderCode = some oid →
      mapGet st.orders oid = some o → o.status = .active →
      (∀ d, o.deadline = some d → now < d) →
      (∀ m, o.settings.maxParticipants = some m →
        m = 0 ∨ o.participants.length < m) →
      (∀ p ∈ o.participants, requestMatchesParticipant request p = false) →
      (∀ p ∈ o.participants, p.id ≠ fid) →
      isValidNickname request.nickname = true →
      request.userId = none → request.guestSessionId = none →
      (joinOrder env st request now fid pid mid).2 =
        ⟨true, true, none, some { o with
          participants := o.participants ++
            [⟨pid, request.userId, request.guestSessionId,
              request.nickname, [], 0, now, now⟩]
          updatedAt := now }⟩ ∧
      mapGet (joinOrder env st request now fid pid mid).1.orders o.id =
        some { o with
          participants := o.participants ++
            [⟨pid, request.userId, request.guestSessionId,
              request.nickname, [], 0, now, now⟩]
          summary := computeSummary (o.participants ++
            [⟨pid, request.userId, request.guestSessionId,
              request.nickname, [], 0, now, now⟩]) now
          updatedAt := now } ∧
      mapGet (joinOrder env st request now fid pid mid).1.modifications
          o.id =
        some ((mapGet st.modifications o.id).getD [] ++
          [⟨mid, o.id, pid, request.nickname, .participant_joined, now,
            request.nickname ++ " joined the order"⟩])) := by
  refine ⟨?_, ?_, ?_, ?_, ?_, ?_, ?_⟩
  · intro hcode
    have hval : validateOrderCode st request.orderCode now =
        ⟨false, false, some "Invalid order code", none⟩ := by
      unfold validateOrderCode
      rw [hcode]
    simp [joinOrder, hval]
  · intro oid hcode hget
    have hval : validateOrderCode st request.orderCode now =
        ⟨false, false, some "Order not found", none⟩ := by
      unfold validateOrderCode
      rw [hcode]
      dsimp only
      rw [hget]
    simp [joinOrder, hval]
  · intro oid o hcode hget hna
    exact joinOrder_not_active hcode hget hna
  · intro oid o d hcode hget hact hd hdle
    have hdp : deadlinePassed o.deadline now = true := by
      unfold deadlinePassed
      rw [hd]
      simpa using hdle
    have hval : validateOrderCode st request.orderCode now =
        ⟨true, false, some "Order deadline has passed", some o⟩ := by
      unfold validateOrderCode
      rw [hcode]
      dsimp only
      rw [hget]
      dsimp only
      rw [if_neg (by simp [hact]), if_pos hdp]
    exact joinOrder_blocked hval
      (fun st2 pid2 => canParticipantJoinOrder_deadline hdp)
  · intro oid o hcode hget hact hdl hdup
    exact joinOrder_reject_late (validateOrderCode_ok hcode hget hact hdl)
      (Or.inl hdup)
  · intro oid o m hcode hget hact hdl hm hm0 hmle
    have hcap : capacityReached o.settings o.participants.length
        = true := by
      unfold capacityReached
      rw [hm]
      simp [hm0, hmle]
    exact joinOrder_reject_late (validateOrderCode_ok hcode hget hact hdl)
      (Or.inr hcap)
  · intro oid o hcode hget hact hdl hcap hdup hfresh hnick huid hgid
    exact joinOrder_success hcode hget hact hdl hcap hdup hfresh hnick
      huid hgid

/-- A concrete run of the amended join protocol: "bobby" joins the
fixture order through code "123456"; the join is approved and the
`participant_joined` record lands in the order's modification log. -/
theorem claim_C2_join_protocol_witness :
    (joinOrder envFix stFix ⟨"123456", "bobby", none, none⟩ 5 "id9" "p9"
        "mo9").2.canJoin = true ∧
    mapGet (joinOrder envFix stFix ⟨"123456", "bobby", none, none⟩ 5
        "id9" "p9" "mo9").1.modifications "o1" =
      some [⟨"mo9", "o1", "p9", "bobby", .participant_joined, 5,
        "bobby joined the order"⟩] := by
  have h := (claim_C2_join_protocol envFix stFix
      ⟨"123456", "bobby", none, none⟩ 5 "id9" "p9" "mo9").2.2.2.2.2.2
      "o1" orderFix rfl rfl rfl
      (fun d hd => by injection hd with h2; omega)
      (fun m hm => by injection hm with h2; subst h2; right; decide)
      (by decide) (by decide) (by decide) rfl rfl
  refine ⟨?_, ?_⟩
  · rw [h.1]
  · exact h.2.2

end OrderPage
